import Mathlib

/-!
Shallow embedding of the Document Index Resolution & Structural Mutation
Engine of `src/googleDocsApiHelpers.ts` (a Google Docs MCP helper library),
together with proofs settling the frozen claims C1-C10.

Conventions of the embedding:
* JavaScript strings are modelled as `List Char`; `undefined`/`null` number
  fields of the fetched document tree are modelled as `Option Nat` (the code
  only distinguishes them via `!== undefined` / `!= null` guards, and the
  claims never depend on the difference between the two).
* A fetched document body is a `List Element`; a table is a list of rows,
  each row a list of cells, each cell recursively containing content
  (`element.table.tableRows[r].tableCells[c].content` in the source).
  A JS `tableRows`/`tableCells`/`content` field that is `undefined` behaves
  in every code path exactly like the empty list, so both are modelled as `[]`.
* Remote effects are modelled by value: `executeBatchUpdate` returns the
  list of remote `batchUpdate` calls it issues (each call being the request
  list sent) plus the response marker and the over-limit warning flag, and
  the composite operations thread those call lists through.
-/

/-- A text run of a paragraph element (`textRun.content` in the API shape). -/
structure TextRun where
  content : List Char
deriving DecidableEq, Repr

/-- One element of `paragraph.elements`, with its absolute index range. -/
structure ParagraphElement where
  startIndex : Option Nat
  endIndex : Option Nat
  textRun : Option TextRun
deriving DecidableEq, Repr

/-- A paragraph node: an ordered list of paragraph elements. -/
structure Paragraph where
  elements : List ParagraphElement
deriving DecidableEq, Repr

mutual

/-- A structural element of a document body `content` list: carries the
recorded `[startIndex, endIndex)` range and at most one of a paragraph or a
table payload (a `sectionBreak`/`tableOfContents` element has neither).
A table is its `tableRows`: a list of rows, each a list of cells. -/
inductive Element : Type where
  | mk : Option Nat → Option Nat → Option Paragraph →
         Option (List (List TableCell)) → Element

/-- A table cell: recorded index range plus nested `content` list. -/
inductive TableCell : Type where
  | mk : Option Nat → Option Nat → List Element → TableCell

end

/-- `element.startIndex`. -/
def Element.startIndex : Element → Option Nat
  | .mk s _ _ _ => s

/-- `element.endIndex`. -/
def Element.endIndex : Element → Option Nat
  | .mk _ e _ _ => e

/-- `element.paragraph`. -/
def Element.paragraph : Element → Option Paragraph
  | .mk _ _ p _ => p

/-- `element.table` (as its `tableRows`). -/
def Element.table : Element → Option (List (List TableCell))
  | .mk _ _ _ t => t

/-- `cell.startIndex`. -/
def TableCell.startIndex : TableCell → Option Nat
  | .mk s _ _ => s

/-- `cell.endIndex`. -/
def TableCell.endIndex : TableCell → Option Nat
  | .mk _ e _ => e

/-- `cell.content`. -/
def TableCell.content : TableCell → List Element
  | .mk _ _ c => c

/-- A flattened text segment pushed by `collectTextFromContent` in
`findTextRange`: literal run text plus the run's absolute index range. -/
structure Segment where
  text : List Char
  start : Nat
  «end» : Nat
deriving DecidableEq, Repr

/-- The segments a single paragraph contributes, in element order: one per
text run whose `content` is truthy (non-empty) and whose `startIndex` and
`endIndex` are defined (`pe.textRun?.content && pe.startIndex !== undefined
&& pe.endIndex !== undefined` in the source). -/
def runSegments (elements : List ParagraphElement) : List Segment :=
  elements.filterMap fun pe =>
    match pe.textRun, pe.startIndex, pe.endIndex with
    | some tr, some s, some e =>
        if tr.content = [] then none else some ⟨tr.content, s, e⟩
    | _, _, _ => none

/-- `paraSegments` lifted to the optional `element.paragraph` field. -/
def paraSegments : Option Paragraph → List Segment
  | none => []
  | some para => runSegments para.elements

mutual

/-- `collectTextFromContent` of `findTextRange`: walks a content list,
emitting paragraph run segments and recursing through every table row's
every cell's content, in source order. The incrementally built `fullText`
of the source equals the concatenation of the collected segments' texts in
this collection order. -/
def collectContent : List Element → List Segment
  | [] => []
  | e :: rest => collectElement e ++ collectContent rest

/-- Segments contributed by one element: its paragraph's runs first, then
(recursively) its table's cells. -/
def collectElement : Element → List Segment
  | .mk _ _ p t =>
      paraSegments p ++
        (match t with
         | some rows => collectRows rows
         | none => [])

/-- Segments of a table's rows, in row order. -/
def collectRows : List (List TableCell) → List Segment
  | [] => []
  | r :: rest => collectCells r ++ collectRows rest

/-- Segments of one row's cells, in column order. -/
def collectCells : List TableCell → List Segment
  | [] => []
  | c :: rest => collectCellContent c ++ collectCells rest

/-- Segments of one cell: recurse into its content list. -/
def collectCellContent : TableCell → List Segment
  | .mk _ _ content => collectContent content

end

/-- Concatenation of segment texts (the source's `fullText` accumulator). -/
def joinTexts (segs : List Segment) : List Char :=
  (segs.map (·.text)).flatten

/-- The comparison `(a, b) => a.start - b.start` of the segment sort, as
the ordering relation it induces. -/
def segLe (a b : Segment) : Prop := a.start ≤ b.start

instance : DecidableRel segLe := fun a b => Nat.decLe a.start b.start

instance : IsTotal Segment segLe := ⟨fun a b => Nat.le_total a.start b.start⟩

instance : IsTrans Segment segLe := ⟨fun _ _ _ => Nat.le_trans⟩

/-- The sorted segment list of `findTextRange`
(`segments.sort((a, b) => a.start - b.start)`).  `Array.prototype.sort` is
a stable comparison sort; it is modelled by a stable sort (insertion sort)
under the comparator's ordering. -/
def flattenSegments (content : List Element) : List Segment :=
  List.insertionSort segLe (collectContent content)

/-- Structural worker for `matchPositionsFrom`: `fuel` bounds the scan
(`hay.length + 1 - start` steps always suffice, and the wrapper passes
exactly that), keeping the definition kernel-reducible. -/
def matchPositionsAux (hay needle : List Char) : Nat → Nat → List Nat
  | 0, _ => []
  | fuel + 1, start =>
    if needle.length + start ≤ hay.length then
      if needle.isPrefixOf (hay.drop start) then
        start :: matchPositionsAux hay needle fuel (start + 1)
      else
        matchPositionsAux hay needle fuel (start + 1)
    else
      []

/-- All positions `i ≥ start` at which `needle` occurs in `hay`, in
increasing order (see `matchPositionsFrom_eq` for the defining
recurrence).  `JavaScript`'s `hay.indexOf(needle, start)` is the head of
this list (for a non-empty `needle`; an empty needle is rejected by the
callers' contract and `findTextRange` does not terminate on it in the
source, see `idxFrom`). -/
def matchPositionsFrom (hay needle : List Char) (start : Nat) : List Nat :=
  matchPositionsAux hay needle (hay.length + 1 - start) start

/-- `fullText.indexOf(textToFind, searchStartIndex)`: the first occurrence
position at or after `start`, `none` for `-1`.  (For an empty needle and
`start > hay.length`, JS returns `hay.length` where this model returns
`none`; that case makes the source's search loop diverge and is excluded
by every claim, which require a non-empty needle.) -/
def idxFrom (hay needle : List Char) (start : Nat) : Option Nat :=
  (matchPositionsFrom hay needle start).head?

/-- The inner mapping loop of `findTextRange` (`for (const seg of
segments) ...`): walks `segments` keeping the running logical position
`currentPosInFullText` (`pos`), assigns `startIndex` once when
`targetStartInFullText` falls inside a segment's logical span, and on
finding the segment whose span's half-open end covers
`targetEndInFullText` returns (breaks) with both indices. -/
def mapRangeGo (tStart tEnd : Nat) :
    List Segment → Nat → Option Nat → Option Nat × Option Nat
  | [], _, si => (si, none)
  | seg :: rest, pos, si =>
    let segEnd := pos + seg.text.length
    let si' :=
      if si = none ∧ pos ≤ tStart ∧ tStart < segEnd then
        some (seg.start + (tStart - pos))
      else si
    if pos < tEnd ∧ tEnd ≤ segEnd then
      (si', some (seg.start + (tEnd - pos)))
    else
      mapRangeGo tStart tEnd rest segEnd si'

/-- Map a logical match range `[tStart, tEnd)` of the reconstructed full
text to absolute document indices (`startIndex`/`endIndex`, `-1` as
`none`). -/
def mapRange (segments : List Segment) (tStart tEnd : Nat) :
    Option Nat × Option Nat :=
  mapRangeGo tStart tEnd segments 0 none

/-- The `while (foundCount < instance)` search loop of `findTextRange`.
`fuel` bounds the number of iterations: each iteration strictly increases
`searchStart`, which never exceeds `fullText.length + 1` for a non-empty
needle, so `fullText.length + 1` iterations suffice (proved in
`searchLoop_eq_matchPositions`); the source loop has no explicit bound. -/
def searchLoop (fullText : List Char) (segments : List Segment)
    (textToFind : List Char) (instanceN : Nat) :
    Nat → Nat → Nat → Option (Nat × Nat)
  | 0, _, _ => none
  | fuel + 1, foundCount, searchStart =>
    if foundCount < instanceN then
      match idxFrom fullText textToFind searchStart with
      | none => none
      | some currentIndex =>
        if foundCount + 1 = instanceN then
          match mapRange segments currentIndex
              (currentIndex + textToFind.length) with
          | (some s, some e) => some (s, e)
          | _ =>
            searchLoop fullText segments textToFind instanceN
              fuel foundCount (currentIndex + 1)
        else
          searchLoop fullText segments textToFind instanceN
            fuel (foundCount + 1) (currentIndex + 1)
    else
      none

/-- `findTextRange(docs, documentId, textToFind, instance)` restricted to
its pure core: collect segments from the fetched body `content`, build
`fullText` in collection order, sort segments by ascending `start`, then
run the occurrence-search loop.  Returns the matched document index range
or `none` (`null`). -/
def findTextRange (content : List Element) (textToFind : List Char)
    (instanceN : Nat) : Option (Nat × Nat) :=
  let fullText := joinTexts (collectContent content)
  searchLoop fullText (flattenSegments content) textToFind instanceN
    (fullText.length + 1) 0 0

/-- JavaScript's `\s` character class (also the class used by
`String.prototype.trimStart`): ASCII whitespace, NBSP, the Unicode space
separators, the line separators and the BOM. -/
def jsWhitespace (c : Char) : Bool :=
  c == ' ' || c == '\t' || c == '\n' || c == '\r' ||
  (c.toNat == 0x0b) || (c.toNat == 0x0c) || (c.toNat == 0xa0) ||
  (c.toNat == 0x1680) ||
  (0x2000 ≤ c.toNat && c.toNat ≤ 0x200a) ||
  (c.toNat == 0x2028) || (c.toNat == 0x2029) ||
  (c.toNat == 0x202f) || (c.toNat == 0x205f) ||
  (c.toNat == 0x3000) || (c.toNat == 0xfeff)

/-- `String.prototype.trimStart`. -/
def trimStart (s : List Char) : List Char :=
  s.dropWhile jsWhitespace

/-- One of the bullet glyphs `-`, `*`, `•`. -/
def isBulletGlyph (c : Char) : Bool :=
  c == '-' || c == '*' || c == '•'

/-- The test `/^[-*•]\s/.test(trimmedText)` of `detectAndFormatLists`. -/
def testsBulletMarker (t : List Char) : Bool :=
  match t with
  | c :: d :: _ => isBulletGlyph c && jsWhitespace d
  | _ => false

/-- `trimmedText.match(/^[-*•]\s*/)?.[0].length || 0`. -/
def bulletMarkerLen (t : List Char) : Nat :=
  match t with
  | c :: rest =>
      if isBulletGlyph c then 1 + (rest.takeWhile jsWhitespace).length
      else 0
  | [] => 0

/-- The test `/^\d+[.)]\s/.test(trimmedText)`.  `\d+` is greedy and the
following character class cannot match a digit, so only the maximal digit
prefix is viable — backtracking never helps. -/
def testsDecimalMarker (t : List Char) : Bool :=
  (t.takeWhile Char.isDigit ≠ []) &&
    (match t.dropWhile Char.isDigit with
     | p :: d :: _ => (p == '.' || p == ')') && jsWhitespace d
     | _ => false)

/-- `trimmedText.match(/^\d+[.)]\s*/)?.[0].length || 0`. -/
def decimalMarkerLen (t : List Char) : Nat :=
  if t.takeWhile Char.isDigit ≠ [] then
    match t.dropWhile Char.isDigit with
    | p :: rest =>
        if p == '.' || p == ')' then
          (t.takeWhile Char.isDigit).length + 1 +
            (rest.takeWhile jsWhitespace).length
        else 0
    | [] => 0
  else 0

/-- The ASCII letter class `[a-zA-Z]`. -/
def isAsciiLetter (c : Char) : Bool :=
  ('a' ≤ c && c ≤ 'z') || ('A' ≤ c && c ≤ 'Z')

/-- The test `/^[a-zA-Z][.)]\s/.test(trimmedText)`. -/
def testsAlphaMarker (t : List Char) : Bool :=
  match t with
  | c :: p :: d :: _ =>
      isAsciiLetter c && (p == '.' || p == ')') && jsWhitespace d
  | _ => false

/-- `trimmedText.match(/^[a-zA-Z][.)]\s*/)?.[0].length || 0`. -/
def alphaMarkerLen (t : List Char) : Nat :=
  match t with
  | c :: p :: rest =>
      if isAsciiLetter c && (p == '.' || p == ')') then
        2 + (rest.takeWhile jsWhitespace).length
      else 0
  | _ => 0

/-- Phase 1 of `detectAndFormatLists` (lines 469-509): classify a
paragraph's text against the three marker grammars in source order and
return the chosen `bulletPreset` together with the recorded
`markerLength`. -/
def detectListMarker (paragraphText : List Char) :
    Option (String × Nat) :=
  let trimmedText := trimStart paragraphText
  if testsBulletMarker trimmedText then
    some ("BULLET_DISC_CIRCLE_SQUARE", bulletMarkerLen trimmedText)
  else if testsDecimalMarker trimmedText then
    some ("NUMBERED_DECIMAL_NESTED", decimalMarkerLen trimmedText)
  else if testsAlphaMarker trimmedText then
    some ("NUMBERED_UPPERALPHA_ALPHA_ROMAN", alphaMarkerLen trimmedText)
  else
    none

/-- Phase 2 marker match of `detectAndFormatLists`
(`trimmedText.match(/^([-*•]\s*|\d+[.)]\s*|[a-zA-Z][.)]\s*)/)`), returning
the match length.  The alternatives are tried left to right; note that
unlike phase 1 the whitespace after the marker is optional here. -/
def markerMatch2 (t : List Char) : Option Nat :=
  match t with
  | [] => none
  | c :: rest =>
    if isBulletGlyph c then
      some (1 + (rest.takeWhile jsWhitespace).length)
    else if c.isDigit then
      match (c :: rest).dropWhile Char.isDigit with
      | p :: rest2 =>
          if p == '.' || p == ')' then
            some (((c :: rest).takeWhile Char.isDigit).length + 1 +
              (rest2.takeWhile jsWhitespace).length)
          else none
      | [] => none
    else if isAsciiLetter c then
      match rest with
      | p :: rest2 =>
          if p == '.' || p == ')' then
            some (2 + (rest2.takeWhile jsWhitespace).length)
          else none
      | [] => none
    else none

/-- The per-paragraph text gathering of `detectAndFormatLists` phase 2:
`paragraphText` accumulates every run whose content is truthy and whose
`startIndex` is defined, and `textStartIndex` is the `startIndex` of the
first such run (defaulting to the element's own `startIndex`). -/
def gatherGo (textStartIndex : Nat) (acc : List Char) :
    List ParagraphElement → Nat × List Char
  | [] => (textStartIndex, acc)
  | pe :: rest =>
    match pe.textRun, pe.startIndex with
    | some tr, some s =>
        if tr.content = [] then gatherGo textStartIndex acc rest
        else gatherGo (if acc = [] then s else textStartIndex)
          (acc ++ tr.content) rest
    | _, _ => gatherGo textStartIndex acc rest

/-- `gatherGo` started from the element's own `startIndex` and an empty
accumulator. -/
def gatherParaText (elementStart : Nat)
    (elements : List ParagraphElement) : Nat × List Char :=
  gatherGo elementStart [] elements

/-- The marker delete ranges built by `detectAndFormatLists` phase 2, in
document (iteration) order, one `(deleteStart, deleteEnd)` per paragraph
whose trimmed text matches the phase-2 marker regex:
`deleteStart = textStartIndex + leadingSpaces`,
`deleteEnd = deleteStart + markerLength`. -/
def markerDeleteRanges : List Element → List (Nat × Nat)
  | [] => []
  | el :: rest =>
    match el.paragraph, el.startIndex with
    | some para, some elStart =>
      let g := gatherParaText elStart para.elements
      let trimmedText := trimStart g.2
      let leadingSpaces := g.2.length - trimmedText.length
      (match markerMatch2 trimmedText with
       | some markerLength =>
           (g.1 + leadingSpaces, g.1 + leadingSpaces + markerLength) ::
             markerDeleteRanges rest
       | none => markerDeleteRanges rest)
    | _, _ => markerDeleteRanges rest

/-- The parsed colour triple returned by the external `hexToRgbColor`
helper of `types.ts` (not part of the engine; passed in as a parameter
below, its numeric content is never inspected here). -/
structure RgbColor where
  red : Nat
  green : Nat
  blue : Nat
deriving DecidableEq, Repr

/-- The style options accepted by `buildUpdateTextStyleRequest`
(`TextStyleArgs` of `types.ts`): every field optional. -/
structure TextStyleArgs where
  bold : Option Bool := none
  italic : Option Bool := none
  underline : Option Bool := none
  strikethrough : Option Bool := none
  fontSize : Option Nat := none
  fontFamily : Option String := none
  foregroundColor : Option String := none
  backgroundColor : Option String := none
  linkUrl : Option String := none
deriving DecidableEq, Repr

/-- The `docs_v1.Schema$TextStyle` object assembled by
`buildUpdateTextStyleRequest`. -/
structure TextStyle where
  bold : Option Bool := none
  italic : Option Bool := none
  underline : Option Bool := none
  strikethrough : Option Bool := none
  fontSize : Option Nat := none
  weightedFontFamily : Option String := none
  foregroundColor : Option RgbColor := none
  backgroundColor : Option RgbColor := none
  link : Option String := none
deriving DecidableEq, Repr

/-- The style options accepted by `buildUpdateParagraphStyleRequest`
(`ParagraphStyleArgs` of `types.ts`). -/
structure ParagraphStyleArgs where
  alignment : Option String := none
  indentStart : Option Nat := none
  indentEnd : Option Nat := none
  spaceAbove : Option Nat := none
  spaceBelow : Option Nat := none
  namedStyleType : Option String := none
  keepWithNext : Option Bool := none
deriving DecidableEq, Repr

/-- The `docs_v1.Schema$ParagraphStyle` object assembled by
`buildUpdateParagraphStyleRequest`. -/
structure ParagraphStyle where
  alignment : Option String := none
  indentStart : Option Nat := none
  indentEnd : Option Nat := none
  spaceAbove : Option Nat := none
  spaceBelow : Option Nat := none
  namedStyleType : Option String := none
  keepWithNext : Option Bool := none
deriving DecidableEq, Repr

/-- A `docs_v1.Schema$Request` as built by this module.  Index fields that
the source can populate from possibly-undefined fetched values
(`editTableCell`'s cell-content indices) are `Option Nat`; all other index
fields are always definite numbers at their construction sites. -/
inductive Request where
  | insertText (index : Option Nat) (text : List Char)
  | deleteContentRange (startIndex endIndex : Nat)
  | updateTextStyle (startIndex endIndex : Option Nat)
      (textStyle : TextStyle) (fields : String)
  | updateParagraphStyle (startIndex endIndex : Option Nat)
      (paragraphStyle : ParagraphStyle) (fields : String)
  | insertTable (rows columns index : Nat)
  | createParagraphBullets (startIndex endIndex : Nat)
      (bulletPreset : String)
  | deleteParagraphBullets (startIndex endIndex : Nat)
  | insertInlineImage (index : Nat) (uri : String)
deriving DecidableEq, Repr

/-- `MAX_BATCH_UPDATE_REQUESTS = 50`. -/
def MAX_BATCH_UPDATE_REQUESTS : Nat := 50

/-- Marker for the value `executeBatchUpdate` returns: `{}` when it
short-circuits without a remote call, otherwise the remote call's
`response.data`. -/
inductive BatchResponse where
  | emptyResponse
  | remoteResponse
deriving DecidableEq, Repr

/-- Observable outcome of `executeBatchUpdate`: the returned value marker,
the remote `batchUpdate` calls issued (each carrying the full request list
sent in that one call), and whether the over-limit `console.warn` fired. -/
structure BatchUpdateOutcome where
  response : BatchResponse
  calls : List (List Request)
  warned : Bool
deriving DecidableEq, Repr

/-- `executeBatchUpdate`: an empty (or missing) request list returns `{}`
without any remote call; otherwise the whole list is sent as one single
`documents.batchUpdate` call, with only a warning when it exceeds
`MAX_BATCH_UPDATE_REQUESTS`. -/
def executeBatchUpdate (requests : List Request) : BatchUpdateOutcome :=
  if requests.length = 0 then
    ⟨.emptyResponse, [], false⟩
  else
    ⟨.remoteResponse, [requests],
      decide (MAX_BATCH_UPDATE_REQUESTS < requests.length)⟩

/-- `insertText` helper: an empty string returns `{}` without touching the
remote document, otherwise one `insertText` request is batch-executed. -/
def insertText (text : List Char) (index : Nat) : BatchUpdateOutcome :=
  if text = [] then ⟨.emptyResponse, [], false⟩
  else executeBatchUpdate [Request.insertText (some index) text]

/-- `buildUpdateTextStyleRequest`: accumulates the defined style options
into a `TextStyle` plus a `fieldsToUpdate` list, throws (`UserError`) on an
invalid hex colour, returns `null` when no field is defined, and otherwise
the request with `fields` comma-joined.  `hexToRgbColor` is the external
colour parser of `types.ts`, passed as a parameter. -/
def buildUpdateTextStyleRequest (startIndex endIndex : Option Nat)
    (style : TextStyleArgs) (hexToRgbColor : String → Option RgbColor) :
    Except String (Option (Request × List String)) := do
  let mut textStyle : TextStyle := {}
  let mut fieldsToUpdate : List String := []
  if let some b := style.bold then
    textStyle := { textStyle with bold := some b }
    fieldsToUpdate := fieldsToUpdate ++ ["bold"]
  if let some b := style.italic then
    textStyle := { textStyle with italic := some b }
    fieldsToUpdate := fieldsToUpdate ++ ["italic"]
  if let some b := style.underline then
    textStyle := { textStyle with underline := some b }
    fieldsToUpdate := fieldsToUpdate ++ ["underline"]
  if let some b := style.strikethrough then
    textStyle := { textStyle with strikethrough := some b }
    fieldsToUpdate := fieldsToUpdate ++ ["strikethrough"]
  if let some n := style.fontSize then
    textStyle := { textStyle with fontSize := some n }
    fieldsToUpdate := fieldsToUpdate ++ ["fontSize"]
  if let some f := style.fontFamily then
    textStyle := { textStyle with weightedFontFamily := some f }
    fieldsToUpdate := fieldsToUpdate ++ ["weightedFontFamily"]
  if let some hex := style.foregroundColor then
    match hexToRgbColor hex with
    | none => throw ("Invalid foreground hex color format: " ++ hex)
    | some rgbColor =>
      textStyle := { textStyle with foregroundColor := some rgbColor }
      fieldsToUpdate := fieldsToUpdate ++ ["foregroundColor"]
  if let some hex := style.backgroundColor then
    match hexToRgbColor hex with
    | none => throw ("Invalid background hex color format: " ++ hex)
    | some rgbColor =>
      textStyle := { textStyle with backgroundColor := some rgbColor }
      fieldsToUpdate := fieldsToUpdate ++ ["backgroundColor"]
  if let some url := style.linkUrl then
    textStyle := { textStyle with link := some url }
    fieldsToUpdate := fieldsToUpdate ++ ["link"]
  if fieldsToUpdate.length = 0 then
    return none
  return some
    (Request.updateTextStyle startIndex endIndex textStyle
      (String.intercalate "," fieldsToUpdate),
     fieldsToUpdate)

/-- `buildUpdateParagraphStyleRequest`: same accumulation pattern for the
seven paragraph style options; returns `null` when none is defined. -/
def buildUpdateParagraphStyleRequest (startIndex endIndex : Option Nat)
    (style : ParagraphStyleArgs) : Option (Request × List String) := Id.run do
  let mut paragraphStyle : ParagraphStyle := {}
  let mut fieldsToUpdate : List String := []
  if let some a := style.alignment then
    paragraphStyle := { paragraphStyle with alignment := some a }
    fieldsToUpdate := fieldsToUpdate ++ ["alignment"]
  if let some n := style.indentStart then
    paragraphStyle := { paragraphStyle with indentStart := some n }
    fieldsToUpdate := fieldsToUpdate ++ ["indentStart"]
  if let some n := style.indentEnd then
    paragraphStyle := { paragraphStyle with indentEnd := some n }
    fieldsToUpdate := fieldsToUpdate ++ ["indentEnd"]
  if let some n := style.spaceAbove then
    paragraphStyle := { paragraphStyle with spaceAbove := some n }
    fieldsToUpdate := fieldsToUpdate ++ ["spaceAbove"]
  if let some n := style.spaceBelow then
    paragraphStyle := { paragraphStyle with spaceBelow := some n }
    fieldsToUpdate := fieldsToUpdate ++ ["spaceBelow"]
  if let some s := style.namedStyleType then
    paragraphStyle := { paragraphStyle with namedStyleType := some s }
    fieldsToUpdate := fieldsToUpdate ++ ["namedStyleType"]
  if let some b := style.keepWithNext then
    paragraphStyle := { paragraphStyle with keepWithNext := some b }
    fieldsToUpdate := fieldsToUpdate ++ ["keepWithNext"]
  if fieldsToUpdate.length = 0 then
    return none
  return some
    (Request.updateParagraphStyle startIndex endIndex paragraphStyle
      (String.intercalate "," fieldsToUpdate),
     fieldsToUpdate)

/-- First pass of `findTableAtIndex`: the first table element whose
defined `startIndex` lies in the ±10 tolerance window around
`tableStartIndex` (`startIdx >= tableStartIndex - 10 && startIdx <=
tableStartIndex + 10`, written without Nat underflow), with the source's
redundant exact-match fallback branch kept. -/
def findTablePass1 (tableStartIndex : Nat) :
    List Element → Option (List (List TableCell) × Nat × Nat)
  | [] => none
  | el :: rest =>
    match el.table, el.startIndex, el.endIndex with
    | some tb, some startIdx, some endIdx =>
        if tableStartIndex ≤ startIdx + 10 ∧
            startIdx ≤ tableStartIndex + 10 then
          some (tb, startIdx, endIdx)
        else if startIdx = tableStartIndex then
          some (tb, startIdx, endIdx)
        else findTablePass1 tableStartIndex rest
    | _, _, _ => findTablePass1 tableStartIndex rest

/-- Second pass of `findTableAtIndex`: the first table element whose
defined `startIndex` is at or after `tableStartIndex`. -/
def findTablePass2 (tableStartIndex : Nat) :
    List Element → Option (List (List TableCell) × Nat × Nat)
  | [] => none
  | el :: rest =>
    match el.table, el.startIndex, el.endIndex with
    | some tb, some startIdx, some endIdx =>
        if tableStartIndex ≤ startIdx then some (tb, startIdx, endIdx)
        else findTablePass2 tableStartIndex rest
    | _, _, _ => findTablePass2 tableStartIndex rest

/-- `findTableAtIndex`: tolerance-window pass first, then the
first-at-or-after fallback pass, else `null`. -/
def findTableAtIndex (content : List Element) (tableStartIndex : Nat) :
    Option (List (List TableCell) × Nat × Nat) :=
  match findTablePass1 tableStartIndex content with
  | some r => some r
  | none => findTablePass2 tableStartIndex content

/-- The table search of `getTableCellRange`: the first element with a
table and a defined `startIndex` satisfying
`Math.abs(startIdx - tableStartIndex) <= 10`. -/
def findTableWindow (tableStartIndex : Nat) :
    List Element → Option (List (List TableCell))
  | [] => none
  | el :: rest =>
    match el.table, el.startIndex with
    | some tb, some startIdx =>
        if tableStartIndex ≤ startIdx + 10 ∧
            startIdx ≤ tableStartIndex + 10 then some tb
        else findTableWindow tableStartIndex rest
    | _, _ => findTableWindow tableStartIndex rest

/-- The `TableCellRange` record returned by `getTableCellRange`.  The
source's TS interface declares plain numbers, but each field is populated
from possibly-undefined fetched values, hence `Option Nat` here. -/
structure TableCellRange where
  cellStartIndex : Option Nat
  cellEndIndex : Option Nat
  contentStartIndex : Option Nat
  contentEndIndex : Option Nat
  hasContent : Bool
deriving DecidableEq, Repr

/-- `hasContent` of `getTableCellRange`: some content element has a
paragraph element whose text run content is truthy and still truthy after
`trim()` (i.e. contains a non-whitespace character). -/
def cellHasContent (content : List Element) : Bool :=
  content.any fun el =>
    match el.paragraph with
    | some para =>
        para.elements.any fun pe =>
          match pe.textRun with
          | some tr => tr.content ≠ [] && tr.content.any (!jsWhitespace ·)
          | none => false
    | none => false

/-- The cell-range record built by `getTableCellRange` once the cell is
found: content bounds default to the cell bounds and are overridden by the
first content element's defined `startIndex` and the last one's defined
`endIndex`. -/
def cellRangeInfo (cell : TableCell) : TableCellRange :=
  if cell.content.isEmpty then
    ⟨cell.startIndex, cell.endIndex, cell.startIndex, cell.endIndex, false⟩
  else
    { cellStartIndex := cell.startIndex
      cellEndIndex := cell.endIndex
      contentStartIndex :=
        match cell.content.head? with
        | some first => first.startIndex <|> cell.startIndex
        | none => cell.startIndex
      contentEndIndex :=
        match cell.content.getLast? with
        | some last => last.endIndex <|> cell.endIndex
        | none => cell.endIndex
      hasContent := cellHasContent cell.content }

/-- `getTableCellRange`: locate the table via the ±10 window, bounds-check
`rowIndex` against `tableRows` and `columnIndex` against the row's
`tableCells` (returning `null` when out of bounds), then build the cell's
range record. -/
def getTableCellRange (content : List Element)
    (tableStartIndex rowIndex columnIndex : Nat) :
    Option TableCellRange :=
  match findTableWindow tableStartIndex content with
  | none => none
  | some tableRows =>
    match tableRows[rowIndex]? with
    | none => none
    | some row =>
      match row[columnIndex]? with
      | none => none
      | some cell => some (cellRangeInfo cell)

/-- The value `editTableCell` returns on success. -/
structure EditCellResult where
  success : Bool
  message : String
deriving DecidableEq, Repr

/-- Is a request one of the two style mutations? -/
def isStyleRequest : Request → Bool
  | .updateTextStyle _ _ _ _ => true
  | .updateParagraphStyle _ _ _ _ => true
  | _ => false

/-- The content-mutation request list built by `editTableCell` when
`textContent` is defined: a delete of the existing content (keeping the
trailing newline) when the cell has content and the guarded `deleteEnd >
contentStartIndex` comparison holds (the guard is `false` in JS whenever
either bound is undefined — NaN comparison — which the inner match
mirrors), followed by the insert when the new text is truthy. -/
def editCellContentRequests (cellRange : TableCellRange)
    (textContent : Option (List Char)) : List Request :=
  match textContent with
  | some tc =>
    (if cellRange.hasContent then
      match cellRange.contentStartIndex, cellRange.contentEndIndex with
      | some cs, some ce =>
          if cs < ce - 1 then [Request.deleteContentRange cs (ce - 1)]
          else []
      | _, _ => []
    else []) ++
    (if tc = [] then []
     else [Request.insertText cellRange.contentStartIndex tc])
  | none => []

/-- The style request list of `editTableCell`'s second phase, built from
the re-resolved cell range: the text style over
`[contentStartIndex, contentStartIndex + textContent.length)` and the
paragraph style over the content range, each elided when its builder
returns `null`. -/
def editCellStyleRequests (updatedCellRange : TableCellRange)
    (textContent : Option (List Char))
    (textStyle : Option TextStyleArgs)
    (paragraphStyle : Option ParagraphStyleArgs)
    (hexToRgbColor : String → Option RgbColor) :
    Except String (List Request) := do
  let textStart := updatedCellRange.contentStartIndex
  let textLen := (textContent.map List.length).getD 0
  let textEnd := (· + textLen) <$> textStart
  let tsReqs : List Request ←
    match textStyle, textContent with
    | some ts, some tc =>
      if tc ≠ [] then
        (buildUpdateTextStyleRequest textStart textEnd ts
            hexToRgbColor).map fun r =>
          match r with
          | some p => [p.1]
          | none => []
      else pure []
    | _, _ => pure []
  let psReqs : List Request :=
    match paragraphStyle with
    | some ps =>
      match buildUpdateParagraphStyleRequest
          updatedCellRange.contentStartIndex
          updatedCellRange.contentEndIndex ps with
      | some p => [p.1]
      | none => []
    | none => []
  return tsReqs ++ psReqs

/-- `editTableCell`: resolves the cell against the tree fetched before the
content mutation (`doc1`), deletes/inserts content when `textContent` is
defined, then — only when a style is given AND `textContent` is truthy —
re-resolves against the re-fetched tree (`doc2`) and batch-applies the
style requests.  Returns the success record together with every remote
batch call issued, or the thrown `UserError` message. -/
def editTableCell (doc1 doc2 : List Element)
    (tableStartIndex rowIndex columnIndex : Nat)
    (textContent : Option (List Char))
    (textStyle : Option TextStyleArgs)
    (paragraphStyle : Option ParagraphStyleArgs)
    (hexToRgbColor : String → Option RgbColor) :
    Except String (EditCellResult × List (List Request)) :=
  match getTableCellRange doc1 tableStartIndex rowIndex columnIndex with
  | none =>
      Except.error ("Could not find cell at row " ++ toString rowIndex ++
        ", column " ++ toString columnIndex ++ " in table at index " ++
        toString tableStartIndex)
  | some cellRange =>
    let requests := editCellContentRequests cellRange textContent
    let contentCalls : List (List Request) :=
      if requests.length > 0 then (executeBatchUpdate requests).calls
      else []
    let styleStep : Except String (List (List Request)) :=
      if (textStyle.isSome || paragraphStyle.isSome) &&
          (match textContent with | some tc => tc ≠ [] | none => false) then
        match getTableCellRange doc2 tableStartIndex rowIndex
            columnIndex with
        | some updatedCellRange =>
          (editCellStyleRequests updatedCellRange textContent textStyle
              paragraphStyle hexToRgbColor).map fun styleRequests =>
            if styleRequests.length > 0 then
              (executeBatchUpdate styleRequests).calls
            else []
        | none => Except.ok []
      else Except.ok []
    styleStep.map fun styleCalls =>
      (⟨true,
        "Successfully edited cell (" ++ toString rowIndex ++ ", " ++
          toString columnIndex ++ ") in table at index " ++
          toString tableStartIndex⟩,
       contentCalls ++ styleCalls)

/-- One entry of `createTableWithData`'s `cellInsertions` array. -/
structure CellInsertion where
  index : Nat
  text : List Char
  isBold : Bool
deriving DecidableEq, Repr

/-- The insertion index `createTableWithData` picks for one cell: the
first paragraph element's `startIndex` of the cell's first content
element, falling back to that content element's own `startIndex`. -/
def cellInsertionIndex (cell : TableCell) : Option Nat :=
  match cell.content.head? with
  | some first =>
      (match first.paragraph with
       | some para =>
           match para.elements.head? with
           | some pe => pe.startIndex
           | none => none
       | none => none) <|> first.startIndex
  | none => none

/-- Does `rows[dataRowIdx][0].toLowerCase()` contain `"total"`?
(`rows[dataRowIdx][0].toLowerCase().includes('total')`). -/
def rowIsTotal (dataRow : List (List Char)) : Bool :=
  match dataRow.head? with
  | some firstCell =>
      firstCell ≠ [] &&
        decide (('t' :: 'o' :: 't' :: 'a' :: 'l' :: []) <:+:
          (firstCell.map Char.toLower))
  | none => false

/-- The text `createTableWithData` writes into cell `(rowIdx, colIdx)`:
header text for row 0, the data value otherwise (empty when the data row
or column is missing). -/
def cellTextFor (headers : List (List Char)) (rows : List (List (List Char)))
    (rowIdx colIdx : Nat) : List Char :=
  if rowIdx = 0 then (headers[colIdx]?).getD []
  else
    match rows[rowIdx - 1]? with
    | some dataRow => (dataRow[colIdx]?).getD []
    | none => []

/-- The bold flag for cell `(rowIdx, colIdx)`: `boldHeaders` on the header
row, else `boldTotalRow` when the data row's first cell contains
`"total"` case-insensitively. -/
def cellBoldFor (rows : List (List (List Char)))
    (boldHeaders boldTotalRow : Bool) (rowIdx : Nat) : Bool :=
  if rowIdx = 0 then boldHeaders
  else
    match rows[rowIdx - 1]? with
    | some dataRow => boldTotalRow && rowIsTotal dataRow
    | none => false

/-- `cellInsertions` collected from one row. -/
def collectRowInsertions (headers : List (List Char))
    (rows : List (List (List Char))) (boldHeaders boldTotalRow : Bool)
    (rowIdx : Nat) (cells : List TableCell) : List CellInsertion :=
  (cells.enum.filterMap fun rc =>
    let cellText := cellTextFor headers rows rowIdx rc.1
    let isBold := cellBoldFor rows boldHeaders boldTotalRow rowIdx
    match cellInsertionIndex rc.2 with
    | some idx => if cellText = [] then none else some ⟨idx, cellText, isBold⟩
    | none => none)

/-- Step 4 of `createTableWithData`: iterate the freshly fetched table's
rows and cells in row-major order, recording for each non-empty cell text
its insertion index and bold flag. -/
def collectCellInsertions (tableRows : List (List TableCell))
    (headers : List (List Char)) (rows : List (List (List Char)))
    (boldHeaders boldTotalRow : Bool) : List CellInsertion :=
  (tableRows.enum.map fun rr =>
    collectRowInsertions headers rows boldHeaders boldTotalRow rr.1 rr.2
  ).flatten

/-- The comparison `(a, b) => b.index - a.index` of the cell-insertion
sort: descending insertion index. -/
def insDesc (a b : CellInsertion) : Prop := b.index ≤ a.index

instance : DecidableRel insDesc := fun a b => Nat.decLe b.index a.index

instance : IsTotal CellInsertion insDesc :=
  ⟨fun a b => Nat.le_total b.index a.index⟩

instance : IsTrans CellInsertion insDesc :=
  ⟨fun _ _ _ h1 h2 => Nat.le_trans h2 h1⟩

/-- Step 5 of `createTableWithData`:
`cellInsertions.sort((a, b) => b.index - a.index)` — a stable sort by
descending insertion index (modelled, like the segment sort, by a stable
insertion sort under the comparator's ordering). -/
def sortedCellInsertions (tableRows : List (List TableCell))
    (headers : List (List Char)) (rows : List (List (List Char)))
    (boldHeaders boldTotalRow : Bool) : List CellInsertion :=
  List.insertionSort insDesc
    (collectCellInsertions tableRows headers rows boldHeaders boldTotalRow)

/-- Step 6 of `createTableWithData`: the one batch of `insertText`
requests, in the sorted (descending-index) order. -/
def tableTextRequests (tableRows : List (List TableCell))
    (headers : List (List Char)) (rows : List (List (List Char)))
    (boldHeaders boldTotalRow : Bool) : List Request :=
  (sortedCellInsertions tableRows headers rows boldHeaders
    boldTotalRow).map fun cell =>
    Request.insertText (some cell.index) cell.text

/-- Well-formedness of a paragraph's element list against a running lower
bound: every text-run element has defined indices with
`endIndex = startIndex + content.length` and `startIndex` at or after the
bound (later runs may sit after gaps left by non-text inline elements);
returns the new bound (the last run's end).  `none` means malformed. -/
def wfRunsB (bound : Nat) : List ParagraphElement → Option Nat
  | [] => some bound
  | pe :: rest =>
    match pe.textRun, pe.startIndex, pe.endIndex with
    | some tr, some s, some e =>
        if bound ≤ s ∧ e = s + tr.content.length then wfRunsB e rest
        else none
    | some _, _, _ => none
    | none, _, _ => wfRunsB bound rest

mutual

/-- Well-formedness of a content list against a running lower bound (the
claims' "sibling ranges contiguous, non-overlapping, in document order"):
each element's text runs and nested table cells occupy positions at or
after the bound, in order; returns the final bound. -/
def wfContentB (bound : Nat) : List Element → Option Nat
  | [] => some bound
  | el :: rest =>
    match wfElementB bound el with
    | some m => wfContentB m rest
    | none => none

/-- Well-formedness of one element: its paragraph's runs first, then its
table's rows. -/
def wfElementB (bound : Nat) : Element → Option Nat
  | .mk _ _ p t =>
    match wfRunsB bound (match p with
                         | some para => para.elements
                         | none => []) with
    | some m =>
        (match t with
         | some rows => wfRowsB m rows
         | none => some m)
    | none => none

/-- Well-formedness of a table's rows, threading the bound. -/
def wfRowsB (bound : Nat) : List (List TableCell) → Option Nat
  | [] => some bound
  | r :: rest =>
    match wfCellsB bound r with
    | some m => wfRowsB m rest
    | none => none

/-- Well-formedness of one row's cells, threading the bound. -/
def wfCellsB (bound : Nat) : List TableCell → Option Nat
  | [] => some bound
  | c :: rest =>
    match wfCellB bound c with
    | some m => wfCellsB m rest
    | none => none

/-- Well-formedness of one cell: its nested content. -/
def wfCellB (bound : Nat) : TableCell → Option Nat
  | .mk _ _ content => wfContentB bound content

end

mutual

/-- The texts of all text runs of a content list in document order,
independent of any recorded indices — the reference for the round-trip
reconstruction property ("the original text runs in document order"). -/
def docRunTexts : List Element → List (List Char)
  | [] => []
  | el :: rest => docElementRunTexts el ++ docRunTexts rest

/-- Run texts of one element. -/
def docElementRunTexts : Element → List (List Char)
  | .mk _ _ p t =>
      (match p with
       | some para => para.elements.filterMap fun pe =>
           (pe.textRun.map (·.content))
       | none => []) ++
      (match t with
       | some rows => docRowsRunTexts rows
       | none => [])

/-- Run texts of a table's rows. -/
def docRowsRunTexts : List (List TableCell) → List (List Char)
  | [] => []
  | r :: rest => docCellsRunTexts r ++ docRowsRunTexts rest

/-- Run texts of one row's cells. -/
def docCellsRunTexts : List TableCell → List (List Char)
  | [] => []
  | c :: rest => docCellRunTexts c ++ docCellsRunTexts rest

/-- Run texts of one cell. -/
def docCellRunTexts : TableCell → List (List Char)
  | .mk _ _ content => docRunTexts content

end

/-- Segments laid out in order between two bounds: each segment's text is
non-empty, starts at or after the running bound, and advances the bound by
its length; used as the well-formedness interface between the tree
predicates and the text-locator proofs. -/
def segsChained : Nat → List Segment → Nat → Prop
  | lo, [], hi => lo ≤ hi
  | lo, s :: rest, hi =>
      lo ≤ s.start ∧ s.text ≠ [] ∧ segsChained (s.start + s.text.length) rest hi

/-- Total length of the segment texts. -/
def totalLenSegs (segs : List Segment) : Nat :=
  (segs.map (·.text.length)).sum

/-- Reference form of the logical-to-absolute start mapping: walk the
segments, and once the remaining logical offset falls inside a segment's
text return `segment.start + offset`. -/
def mapStartSpec : List Segment → Nat → Option Nat
  | [], _ => none
  | s :: rest, t =>
      if t < s.text.length then some (s.start + t)
      else mapStartSpec rest (t - s.text.length)

/-- The document range `findTextRange` reports for a match of length `L`
at logical position `p`: the mapped start, and the mapped position of the
match's last character plus one. -/
def mappedPairAt (segments : List Segment) (L p : Nat) :
    Option (Nat × Nat) :=
  match mapStartSpec segments p, mapStartSpec segments (p + L - 1) with
  | some a, some b => some (a, b + 1)
  | _, _ => none

/-- Modelled from the spec: the count of non-overlapping matches of a
non-empty `needle` in `hay` scanning left to right, the scan resuming
after a match at the match's end ("the true count of non-overlapping
matches").  `fuel` bounds the scan (each step advances `start` by at least
one, so `hay.length + 1` steps — what `specNonOverlapCount` passes —
always suffice), keeping the definition kernel-reducible. -/
def specNonOverlapCountAux (hay needle : List Char) : Nat → Nat → Nat
  | 0, _ => 0
  | fuel + 1, start =>
    if needle.length + start ≤ hay.length ∧ needle ≠ [] then
      if needle.isPrefixOf (hay.drop start) then
        1 + specNonOverlapCountAux hay needle fuel (start + needle.length)
      else
        specNonOverlapCountAux hay needle fuel (start + 1)
    else 0

/-- The non-overlapping match count of the whole text. -/
def specNonOverlapCount (hay needle : List Char) (start : Nat) : Nat :=
  specNonOverlapCountAux hay needle (hay.length + 1) start

/-- The table payload of an element together with its recorded range. -/
def extractTable (el : Element) :
    Option (List (List TableCell) × Nat × Nat) :=
  match el.table, el.startIndex, el.endIndex with
  | some tb, some s, some e => some (tb, s, e)
  | _, _, _ => none

/-- Is `el` a table element whose recorded start lies within ±10 offset
units of the anchor? -/
def tableInWindow (anchorOffset : Nat) (el : Element) : Bool :=
  match el.table, el.startIndex, el.endIndex with
  | some _, some s, some _ =>
      decide (anchorOffset ≤ s + 10 ∧ s ≤ anchorOffset + 10)
  | _, _, _ => false

/-- Is `el` a table element whose recorded start is at or after the
anchor? -/
def tableAtOrAfter (anchorOffset : Nat) (el : Element) : Bool :=
  match el.table, el.startIndex, el.endIndex with
  | some _, some s, some _ => decide (anchorOffset ≤ s)
  | _, _, _ => false

/-- Modelled from the spec (§4.3 `FindCell` / claim C5): locate the table
whose recorded start offset is within ±10 of the anchor, or failing that
the first table whose start is at or after the anchor; written with
`List.find?` over a single element predicate per phase. -/
def specLocateTable (content : List Element) (anchorOffset : Nat) :
    Option (List (List TableCell) × Nat × Nat) :=
  match content.find? (tableInWindow anchorOffset) with
  | some el => extractTable el
  | none =>
    match content.find? (tableAtOrAfter anchorOffset) with
    | some el => extractTable el
    | none => none

/-- Modelled from the spec (§4.4 / claim C7): the three marker grammars in
priority order, as one classifier over the trimmed paragraph text.  The
marker length is the marker glyphs plus all trailing whitespace. -/
def specListGrammar (t : List Char) : Option (String × Nat) :=
  match t with
  | c :: w :: rest =>
    if isBulletGlyph c && jsWhitespace w then
      some ("BULLET_DISC_CIRCLE_SQUARE",
        2 + (rest.takeWhile jsWhitespace).length)
    else if c.isDigit then
      match (c :: w :: rest).dropWhile Char.isDigit with
      | p :: d :: rest2 =>
        if (p == '.' || p == ')') && jsWhitespace d then
          some ("NUMBERED_DECIMAL_NESTED",
            ((c :: w :: rest).takeWhile Char.isDigit).length + 2 +
              (rest2.takeWhile jsWhitespace).length)
        else none
      | _ => none
    else if isAsciiLetter c && (w == '.' || w == ')') then
      match rest with
      | d :: rest2 =>
        if jsWhitespace d then
          some ("NUMBERED_UPPERALPHA_ALPHA_ROMAN",
            3 + (rest2.takeWhile jsWhitespace).length)
        else none
      | [] => none
    else none
  | _ => none

/-- Well-formedness of a top-level content list as read by
`detectAndFormatLists` phase 2 (the claims' "the fetched tree lists
elements in ascending document order with distinct start offsets"): every
element carries a recorded `[s, e]` range starting at or past the running
bound, and a paragraph's runs are laid out within its range (`wfRunsB`
from its start, ending at or before its end); returns the final bound. -/
def wfFlatContent : Nat → List Element → Option Nat
  | bound, [] => some bound
  | bound, el :: rest =>
    match el.startIndex, el.endIndex with
    | some s, some e =>
      if bound ≤ s ∧ s ≤ e then
        match el.paragraph with
        | some para =>
          (match wfRunsB s para.elements with
           | some m =>
               if m ≤ e then wfFlatContent e rest else none
           | none => none)
        | none => wfFlatContent e rest
      else none
    | _, _ => none

/-! ### Concrete demonstration documents (used by witnesses and
counterexamples) -/

/-- Demo body: one paragraph whose single run is `"aaa"` at `[1,4)`. -/
def demoAaaDoc : List Element :=
  [Element.mk (some 1) (some 4)
    (some ⟨[⟨some 1, some 4, some ⟨['a', 'a', 'a']⟩⟩]⟩) none]

/-- Demo body with a structural gap: a paragraph run `"Hello"` at `[1,6)`,
then a table at `[6,13)` whose single cell holds a paragraph run `"World"`
at `[8,13)`; the offsets `[6,8)` are structural markup holding no text. -/
def demoGapDoc : List Element :=
  [Element.mk (some 1) (some 6)
    (some ⟨[⟨some 1, some 6, some ⟨['H', 'e', 'l', 'l', 'o']⟩⟩]⟩) none,
   Element.mk (some 6) (some 13) none
    (some [[TableCell.mk (some 7) (some 13)
      [Element.mk (some 8) (some 13)
        (some ⟨[⟨some 8, some 13,
          some ⟨['W', 'o', 'r', 'l', 'd']⟩⟩]⟩) none]]])]

/-- Demo body: a 1×1 table at `[10,21)`: cell `[10,20)` whose single
paragraph `[11,20)` carries the run `"12345678\n"`. -/
def demoCellDoc : List Element :=
  [Element.mk (some 10) (some 21) none
    (some [[TableCell.mk (some 10) (some 20)
      [Element.mk (some 11) (some 20)
        (some ⟨[⟨some 11, some 20,
          some ⟨['1', '2', '3', '4', '5', '6', '7', '8', '\n']⟩⟩]⟩)
        none]]])]

/-- Demo body: a paragraph at `[1,50)` and a 2×3 table at `[50,89)`. -/
def demoTable2x3Doc : List Element :=
  [Element.mk (some 1) (some 50) (some ⟨[]⟩) none,
   Element.mk (some 50) (some 89) none
    (some [[TableCell.mk (some 51) (some 57) [],
            TableCell.mk (some 57) (some 63) [],
            TableCell.mk (some 63) (some 69) []],
           [TableCell.mk (some 70) (some 76) [],
            TableCell.mk (some 76) (some 82) [],
            TableCell.mk (some 82) (some 88) []]])]

/-- Demo body: two marker paragraphs `"1. aa\n"` at `[1,7)` and
`"2. bb\n"` at `[7,13)`. -/
def demoListDoc : List Element :=
  [Element.mk (some 1) (some 7)
    (some ⟨[⟨some 1, some 7,
      some ⟨['1', '.', ' ', 'a', 'a', '\n']⟩⟩]⟩) none,
   Element.mk (some 7) (some 13)
    (some ⟨[⟨some 7, some 13,
      some ⟨['2', '.', ' ', 'b', 'b', '\n']⟩⟩]⟩) none]

/-- Demo fetched table rows for table population: one row of two cells
whose first paragraph elements start at offsets 5 and 10. -/
def demoInsertRows : List (List TableCell) :=
  [[TableCell.mk (some 4) (some 7)
      [Element.mk (some 5) (some 7)
        (some ⟨[⟨some 5, some 7, none⟩]⟩) none],
    TableCell.mk (some 9) (some 12)
      [Element.mk (some 10) (some 12)
        (some ⟨[⟨some 10, some 12, none⟩]⟩) none]]]

/-- Demo body for the round trip: paragraph run `"Hello\n"` at `[1,7)`,
then a table whose cell holds a paragraph run `"World\n"` at `[9,15)`. -/
def demoFlattenDoc : List Element :=
  [Element.mk (some 1) (some 7)
    (some ⟨[⟨some 1, some 7,
      some ⟨['H', 'e', 'l', 'l', 'o', '\n']⟩⟩]⟩) none,
   Element.mk (some 7) (some 16) none
    (some [[TableCell.mk (some 8) (some 15)
      [Element.mk (some 9) (some 15)
        (some ⟨[⟨some 9, some 15,
          some ⟨['W', 'o', 'r', 'l', 'd', '\n']⟩⟩]⟩) none]]])]

/-! ### Helper lemmas: match positions and index mapping -/

theorem matchPositionsFrom_eq (hay needle : List Char) (start : Nat) :
    matchPositionsFrom hay needle start =
      if needle.length + start ≤ hay.length then
        if needle.isPrefixOf (hay.drop start) then
          start :: matchPositionsFrom hay needle (start + 1)
        else
          matchPositionsFrom hay needle (start + 1)
      else
        [] := by
  unfold matchPositionsFrom
  by_cases hs : start ≤ hay.length
  · rw [show hay.length + 1 - start = (hay.length + 1 - (start + 1)) + 1 by
      omega]
    rw [matchPositionsAux]
  · rw [show hay.length + 1 - start = 0 by omega, matchPositionsAux,
      if_neg (by omega)]

theorem matchPositionsAux_mem (hay needle : List Char) :
    ∀ (fuel s i : Nat), i ∈ matchPositionsAux hay needle fuel s →
      s ≤ i ∧ needle.length + i ≤ hay.length := by
  intro fuel
  induction fuel with
  | zero => intro s i h; simp [matchPositionsAux] at h
  | succ fuel ih =>
    intro s i h
    rw [matchPositionsAux] at h
    by_cases hle : needle.length + s ≤ hay.length
    · rw [if_pos hle] at h
      by_cases hpre : needle.isPrefixOf (hay.drop s) = true
      · rw [if_pos hpre] at h
        rcases List.mem_cons.mp h with rfl | h2
        · exact ⟨Nat.le_refl _, hle⟩
        · have := ih (s + 1) i h2
          omega
      · rw [if_neg hpre] at h
        have := ih (s + 1) i h
        omega
    · rw [if_neg hle] at h
      simp at h

theorem matchPositionsFrom_mem (hay needle : List Char) (i : Nat)
    (s : Nat) (h : i ∈ matchPositionsFrom hay needle s) :
    s ≤ i ∧ needle.length + i ≤ hay.length :=
  matchPositionsAux_mem hay needle _ s i h

theorem matchPositionsAux_sorted (hay needle : List Char) :
    ∀ (fuel s : Nat),
      (matchPositionsAux hay needle fuel s).Pairwise (· < ·) := by
  intro fuel
  induction fuel with
  | zero => intro s; simp [matchPositionsAux]
  | succ fuel ih =>
    intro s
    rw [matchPositionsAux]
    by_cases hle : needle.length + s ≤ hay.length
    · rw [if_pos hle]
      by_cases hpre : needle.isPrefixOf (hay.drop s) = true
      · rw [if_pos hpre]
        refine List.pairwise_cons.mpr ⟨fun j hj => ?_, ih (s + 1)⟩
        have := matchPositionsAux_mem hay needle fuel (s + 1) j hj
        omega
      · rw [if_neg hpre]
        exact ih (s + 1)
    · rw [if_neg hle]
      exact List.Pairwise.nil

theorem matchPositionsFrom_sorted (hay needle : List Char) (s : Nat) :
    (matchPositionsFrom hay needle s).Pairwise (· < ·) :=
  matchPositionsAux_sorted hay needle _ s

theorem matchPositionsAux_cons (hay needle : List Char) (p : Nat)
    (t : List Nat) :
    ∀ (fuel s : Nat), fuel + s = hay.length + 1 →
      matchPositionsAux hay needle fuel s = p :: t →
      t = matchPositionsFrom hay needle (p + 1) ∧ s ≤ p ∧
        needle.length + p ≤ hay.length := by
  intro fuel
  induction fuel with
  | zero => intro s _ h; simp [matchPositionsAux] at h
  | succ fuel ih =>
    intro s hfs h
    rw [matchPositionsAux] at h
    by_cases hle : needle.length + s ≤ hay.length
    · rw [if_pos hle] at h
      by_cases hpre : needle.isPrefixOf (hay.drop s) = true
      · rw [if_pos hpre, List.cons.injEq] at h
        obtain ⟨h1, h2⟩ := h
        subst h2
        refine ⟨?_, by omega, by omega⟩
        unfold matchPositionsFrom
        rw [← h1, show hay.length + 1 - (s + 1) = fuel by omega]
      · rw [if_neg hpre] at h
        obtain ⟨g1, g2, g3⟩ := ih (s + 1) (by omega) h
        exact ⟨g1, by omega, g3⟩
    · rw [if_neg hle] at h
      simp at h

theorem matchPositionsFrom_cons (hay needle : List Char) (p : Nat)
    (t : List Nat) (s : Nat)
    (h : matchPositionsFrom hay needle s = p :: t) :
    t = matchPositionsFrom hay needle (p + 1) ∧ s ≤ p ∧
      needle.length + p ≤ hay.length := by
  by_cases hs : s ≤ hay.length + 1
  · exact matchPositionsAux_cons hay needle p t _ s (by omega) h
  · rw [matchPositionsFrom,
      show hay.length + 1 - s = 0 by omega, matchPositionsAux] at h
    simp at h

theorem totalLenSegs_cons (s : Segment) (rest : List Segment) :
    totalLenSegs (s :: rest) = s.text.length + totalLenSegs rest := by
  simp [totalLenSegs]

theorem mapStartSpec_total (segs : List Segment) :
    ∀ t, t < totalLenSegs segs → ∃ a, mapStartSpec segs t = some a := by
  induction segs with
  | nil => intro t h; simp [totalLenSegs] at h
  | cons s rest ih =>
    intro t h
    rw [mapStartSpec]
    by_cases hlt : t < s.text.length
    · rw [if_pos hlt]
      exact ⟨_, rfl⟩
    · rw [if_neg hlt]
      apply ih
      rw [totalLenSegs_cons] at h
      omega

theorem mapRangeGo_some (tS tEnd : Nat) (a : Nat) :
    ∀ (segs : List Segment) (pos : Nat), pos < tEnd →
      mapRangeGo tS tEnd segs pos (some a) =
        (some a, (fun b => b + 1) <$> mapStartSpec segs (tEnd - 1 - pos)) := by
  intro segs
  induction segs with
  | nil =>
    intro pos h
    simp [mapRangeGo, mapStartSpec]
  | cons seg rest ih =>
    intro pos h
    rw [mapRangeGo]
    have hA : ¬((some a : Option Nat) = none ∧ pos ≤ tS ∧
        tS < pos + seg.text.length) := by simp
    simp only [if_neg hA]
    by_cases he : tEnd ≤ pos + seg.text.length
    · rw [if_pos ⟨h, he⟩, mapStartSpec, if_pos (show tEnd - 1 - pos < seg.text.length by omega)]
      have harith : seg.start + (tEnd - pos) =
          seg.start + (tEnd - 1 - pos) + 1 := by omega
      rw [harith]
      rfl
    · rw [if_neg (fun hc => he hc.2), ih (pos + seg.text.length) (by omega),
        mapStartSpec, if_neg (show ¬ tEnd - 1 - pos < seg.text.length by omega)]
      have harith : tEnd - 1 - (pos + seg.text.length) =
          tEnd - 1 - pos - seg.text.length := by omega
      rw [harith]

theorem mapRangeGo_none (tS tEnd : Nat) (hte : tS < tEnd) :
    ∀ (segs : List Segment) (pos : Nat), pos ≤ tS →
      mapRangeGo tS tEnd segs pos none =
        (mapStartSpec segs (tS - pos),
         (fun b => b + 1) <$> mapStartSpec segs (tEnd - 1 - pos)) := by
  intro segs
  induction segs with
  | nil =>
    intro pos h
    simp [mapRangeGo, mapStartSpec]
  | cons seg rest ih =>
    intro pos hpos
    rw [mapRangeGo]
    by_cases hs : tS < pos + seg.text.length
    · simp only [eq_self_iff_true, true_and]
      simp only [if_pos (show pos ≤ tS ∧ tS < pos + seg.text.length from
        ⟨hpos, hs⟩)]
      by_cases he : tEnd ≤ pos + seg.text.length
      · rw [if_pos ⟨by omega, he⟩,
          mapStartSpec, if_pos (show tS - pos < seg.text.length by omega),
          mapStartSpec, if_pos (show tEnd - 1 - pos < seg.text.length by omega)]
        have harith : seg.start + (tEnd - pos) =
            seg.start + (tEnd - 1 - pos) + 1 := by omega
        rw [harith]
        rfl
      · rw [if_neg (fun hc => he hc.2),
          mapRangeGo_some tS tEnd _ rest (pos + seg.text.length) (by omega),
          mapStartSpec, if_pos (show tS - pos < seg.text.length by omega),
          mapStartSpec, if_neg (show ¬ tEnd - 1 - pos < seg.text.length by omega)]
        have harith : tEnd - 1 - (pos + seg.text.length) =
            tEnd - 1 - pos - seg.text.length := by omega
        rw [harith]
    · simp only [eq_self_iff_true, true_and]
      simp only [if_neg (show ¬(pos ≤ tS ∧ tS < pos + seg.text.length) from
        fun hc => hs hc.2)]
      rw [if_neg (show ¬(pos < tEnd ∧ tEnd ≤ pos + seg.text.length) by omega),
        ih (pos + seg.text.length) (by omega),
        mapStartSpec, if_neg (show ¬ tS - pos < seg.text.length by omega),
        mapStartSpec, if_neg (show ¬ tEnd - 1 - pos < seg.text.length by omega)]
      have h1 : tS - (pos + seg.text.length) =
          tS - pos - seg.text.length := by omega
      have h2 : tEnd - 1 - (pos + seg.text.length) =
          tEnd - 1 - pos - seg.text.length := by omega
      rw [h1, h2]

theorem mapRange_eq (segs : List Segment) (t e : Nat) (h : t < e) :
    mapRange segs t e =
      (mapStartSpec segs t,
       (fun b => b + 1) <$> mapStartSpec segs (e - 1)) := by
  have := mapRangeGo_none t e h segs 0 (Nat.zero_le _)
  simpa [mapRange] using this

theorem segsChained_le : ∀ (lo : Nat) (segs : List Segment) (hi : Nat),
    segsChained lo segs hi → lo ≤ hi := by
  intro lo segs
  induction segs generalizing lo with
  | nil => intro hi h; exact h
  | cons s rest ih =>
    intro hi h
    obtain ⟨h1, _, h3⟩ := h
    have := ih (s.start + s.text.length) hi h3
    omega

theorem segsChained_append (a b : List Segment) :
    ∀ (lo mid hi : Nat), segsChained lo a mid → segsChained mid b hi →
      segsChained lo (a ++ b) hi := by
  induction a with
  | nil =>
    intro lo mid hi ha hb
    have : lo ≤ mid := ha
    induction b generalizing lo mid with
    | nil =>
      simp only [List.nil_append]
      exact Nat.le_trans this hb
    | cons s rest _ =>
      obtain ⟨h1, h2, h3⟩ := hb
      exact ⟨by omega, h2, h3⟩
  | cons s rest ih =>
    intro lo mid hi ha hb
    obtain ⟨h1, h2, h3⟩ := ha
    exact ⟨h1, h2, ih _ mid hi h3 hb⟩

theorem segsChained_weaken (segs : List Segment) :
    ∀ (lo lo' hi hi' : Nat), segsChained lo segs hi → lo' ≤ lo → hi ≤ hi' →
      segsChained lo' segs hi' := by
  cases segs with
  | nil =>
    intro lo lo' hi hi' h h1 h2
    simp only [segsChained] at h ⊢
    omega
  | cons s rest =>
    intro lo lo' hi hi' h h1 h2
    obtain ⟨g1, g2, g3⟩ := h
    refine ⟨by omega, g2, ?_⟩
    -- strengthen the tail bound
    clear g1 g2
    induction rest generalizing s with
    | nil => simp only [segsChained] at g3 ⊢; omega
    | cons t rest2 ih =>
      obtain ⟨k1, k2, k3⟩ := g3
      exact ⟨k1, k2, ih t k3⟩

theorem segsChained_mem_ge (segs : List Segment) :
    ∀ (lo hi : Nat), segsChained lo segs hi →
      ∀ b ∈ segs, lo ≤ b.start := by
  induction segs with
  | nil => intro lo hi _ b hb; simp at hb
  | cons s rest ih =>
    intro lo hi h b hb
    obtain ⟨h1, h2, h3⟩ := h
    rcases List.mem_cons.mp hb with rfl | hb2
    · exact h1
    · have := ih _ hi h3 b hb2
      omega

theorem segsChained_pairwise_start (segs : List Segment) :
    ∀ (lo hi : Nat), segsChained lo segs hi →
      segs.Pairwise (fun a b => a.start + a.text.length ≤ b.start) := by
  induction segs with
  | nil => intro lo hi _; exact List.Pairwise.nil
  | cons s rest ih =>
    intro lo hi h
    obtain ⟨h1, h2, h3⟩ := h
    exact List.pairwise_cons.mpr
      ⟨segsChained_mem_ge rest _ hi h3, ih _ _ h3⟩

theorem mapStartSpec_ge (segs : List Segment) :
    ∀ (lo hi t a : Nat), segsChained lo segs hi →
      mapStartSpec segs t = some a → lo ≤ a := by
  induction segs with
  | nil => intro lo hi t a _ ha; simp [mapStartSpec] at ha
  | cons s rest ih =>
    intro lo hi t a h ha
    obtain ⟨h1, h2, h3⟩ := h
    rw [mapStartSpec] at ha
    by_cases hlt : t < s.text.length
    · rw [if_pos hlt] at ha
      injection ha with ha
      omega
    · rw [if_neg hlt] at ha
      have := ih _ hi _ _ h3 ha
      omega

theorem mapStartSpec_mono (segs : List Segment) :
    ∀ (lo hi t u a b : Nat), segsChained lo segs hi → t < u →
      mapStartSpec segs t = some a → mapStartSpec segs u = some b →
      a < b := by
  induction segs with
  | nil => intro lo hi t u a b _ _ ha _; simp [mapStartSpec] at ha
  | cons s rest ih =>
    intro lo hi t u a b h htu ha hb
    obtain ⟨h1, h2, h3⟩ := h
    rw [mapStartSpec] at ha hb
    by_cases ht : t < s.text.length
    · rw [if_pos ht] at ha
      injection ha with ha
      by_cases hu : u < s.text.length
      · rw [if_pos hu] at hb
        injection hb with hb
        omega
      · rw [if_neg hu] at hb
        have := mapStartSpec_ge rest _ hi _ _ h3 hb
        omega
    · rw [if_neg ht] at ha
      have hu : ¬ u < s.text.length := by omega
      rw [if_neg hu] at hb
      exact ih _ hi _ _ _ _ h3 (by omega) ha hb

theorem mappedPairAt_total (segments : List Segment) (L p : Nat)
    (hL : 1 ≤ L) (hp : p + L ≤ totalLenSegs segments) :
    ∃ a b, mappedPairAt segments L p = some (a, b) := by
  obtain ⟨a, ha⟩ := mapStartSpec_total segments p (by omega)
  obtain ⟨b, hb⟩ := mapStartSpec_total segments (p + L - 1) (by omega)
  refine ⟨a, b + 1, ?_⟩
  rw [mappedPairAt, ha, hb]

theorem searchLoop_eq (fullText : List Char) (segments : List Segment)
    (needle : List Char) (instanceN : Nat)
    (hne : needle ≠ [])
    (htot : totalLenSegs segments = fullText.length) :
    ∀ (fuel fc ss : Nat), fc < instanceN →
      fullText.length + 1 ≤ fuel + ss →
      searchLoop fullText segments needle instanceN fuel fc ss =
        ((matchPositionsFrom fullText needle ss)[instanceN - fc - 1]?).bind
          (fun p => mappedPairAt segments needle.length p) := by
  have hlen : 1 ≤ needle.length := by
    cases needle with
    | nil => exact absurd rfl hne
    | cons c cs => simp
  intro fuel
  induction fuel with
  | zero =>
    intro fc ss hfc hfuel
    rw [searchLoop]
    rw [matchPositionsFrom_eq, if_neg (by omega)]
    simp
  | succ fuel ih =>
    intro fc ss hfc hfuel
    rw [searchLoop, if_pos hfc]
    cases hmp : matchPositionsFrom fullText needle ss with
    | nil =>
      rw [idxFrom, hmp]
      simp
    | cons p t =>
      obtain ⟨ht, hsp, hple⟩ := matchPositionsFrom_cons fullText needle p t ss hmp
      rw [idxFrom, hmp]
      simp only [List.head?_cons]
      by_cases hlast : fc + 1 = instanceN
      · rw [if_pos hlast]
        have hrange := mapRange_eq segments p (p + needle.length) (by omega)
        obtain ⟨a, hsa⟩ := mapStartSpec_total segments p (by omega)
        obtain ⟨b, hsb⟩ := mapStartSpec_total segments
          (p + needle.length - 1) (by omega)
        rw [hsa, hsb] at hrange
        simp only [Option.map_some] at hrange
        have hidx : instanceN - fc - 1 = 0 := by omega
        rw [hidx]
        simp only [List.getElem?_cons_zero, Option.some_bind]
        rw [hrange, mappedPairAt.eq_def, hsa, hsb]
      · rw [if_neg hlast]
        rw [ih (fc + 1) (p + 1) (by omega) (by omega), ht]
        have hidx : instanceN - fc - 1 = (instanceN - (fc + 1) - 1) + 1 := by omega
        rw [hidx]
        simp only [List.getElem?_cons_succ]

theorem totalLenSegs_flattenSegments (content : List Element) :
    totalLenSegs (flattenSegments content) =
      (joinTexts (collectContent content)).length := by
  unfold flattenSegments joinTexts totalLenSegs
  rw [List.length_flatten, List.map_map]
  exact ((List.perm_insertionSort segLe (collectContent content)).map
    (fun s : Segment => s.text.length)).sum_eq

theorem findTextRange_eq (content : List Element) (needle : List Char)
    (k : Nat) (hne : needle ≠ []) (hk : 1 ≤ k) :
    findTextRange content needle k =
      ((matchPositionsFrom (joinTexts (collectContent content))
          needle 0)[k - 1]?).bind
        (fun p => mappedPairAt (flattenSegments content)
          needle.length p) := by
  unfold findTextRange
  have h := searchLoop_eq (joinTexts (collectContent content))
    (flattenSegments content) needle k hne
    (totalLenSegs_flattenSegments content)
    ((joinTexts (collectContent content)).length + 1) 0 0 hk (by omega)
  simpa using h

/-! ### Claims C2 and C4: the text locator -/

/-- C2, counterexample: the claim counts occurrences non-overlapping, but
the source resumes searching at `currentIndex + 1`, so occurrences may
overlap.  For the document text `"aaa"` and needle `"aa"` the true
non-overlapping count is 1, yet occurrence 2 is found (at the overlapping
position) instead of being `NotFound`. -/
theorem findTextRange_overlap_counterexample_C2 :
    findTextRange demoAaaDoc ['a', 'a'] 2 = some (2, 4) ∧
    specNonOverlapCount (joinTexts (collectContent demoAaaDoc))
      ['a', 'a'] 0 = 1 := by
  constructor
  · decide
  · decide

/-- C4, counterexample: a needle whose only appearance straddles the
structural gap `[6,8)` of `demoGapDoc` (between the paragraph segment
`[1,6)` and the table-cell segment `[8,13)`) IS returned as a match, with
a range spanning the gap — no collected segment covers the returned range
`[5,9)`. -/
theorem findTextRange_straddle_counterexample_C4 :
    findTextRange demoGapDoc ['o', 'W'] 1 = some (5, 9) ∧
    (collectContent demoGapDoc).all
      (fun s => !(s.start ≤ 5 && 9 ≤ s.start + s.text.length)) = true := by
  constructor
  · decide
  · decide

/-- C4 (amended): for a non-empty needle the endpoint mapping of a found
occurrence always succeeds — every logical position of the reconstructed
full text lies inside some segment — so `findTextRange` never rejects a
match: it returns `NotFound` exactly when fewer than `k` (possibly
overlapping) occurrences exist, and a match straddling a structural gap is
returned with a range spanning the gap (the source's resume-and-retry
branch at lines 155-163 is unreachable for non-empty needles). -/
theorem findTextRange_no_rejection_C4 :
    (∀ (segments : List Segment) (p L : Nat), 1 ≤ L →
       p + L ≤ totalLenSegs segments →
       (mapRange segments p (p + L)).1.isSome = true ∧
       (mapRange segments p (p + L)).2.isSome = true)
  ∧ (∀ (content : List Element) (needle : List Char) (k : Nat),
       needle ≠ [] → 1 ≤ k →
       (findTextRange content needle k = none ↔
         (matchPositionsFrom (joinTexts (collectContent content))
           needle 0).length < k)) := by
  constructor
  · intro segments p L hL hp
    obtain ⟨a, ha⟩ := mapStartSpec_total segments p (by omega)
    obtain ⟨b, hb⟩ := mapStartSpec_total segments (p + L - 1) (by omega)
    rw [mapRange_eq segments p (p + L) (by omega)]
    have he : p + L - 1 = p + L - 1 := rfl
    rw [ha, hb]
    exact ⟨rfl, rfl⟩
  · intro content needle k hne hk
    rw [findTextRange_eq content needle k hne hk]
    constructor
    · intro h
      by_contra hlt
      push_neg at hlt
      have hidx : k - 1 <
          (matchPositionsFrom (joinTexts (collectContent content))
            needle 0).length := by omega
      rw [List.getElem?_eq_getElem hidx] at h
      set p := (matchPositionsFrom (joinTexts (collectContent content))
        needle 0)[k - 1] with hp
      have hmem := List.getElem_mem hidx
      have hbound := matchPositionsFrom_mem
        (joinTexts (collectContent content)) needle p 0 (hp ▸ hmem)
      have hlen : 1 ≤ needle.length := by
        cases needle with
        | nil => exact absurd rfl hne
        | cons c cs => simp
      obtain ⟨a, b, hab⟩ := mappedPairAt_total (flattenSegments content)
        needle.length p hlen
        (by rw [totalLenSegs_flattenSegments]; omega)
      rw [Option.some_bind, hab] at h
      exact Option.noConfusion h
    · intro hlt
      rw [List.getElem?_eq_none (by omega)]
      rfl

/-- C4 witness: the amended statement evaluated on `demoGapDoc` (the
flattened segments leave the gap `[6,8)` uncovered, needle `"oW"`,
occurrence 1). -/
theorem findTextRange_no_rejection_C4_witness :
    ((mapRange (flattenSegments demoGapDoc) 4 (4 + 2)).1.isSome = true ∧
     (mapRange (flattenSegments demoGapDoc) 4 (4 + 2)).2.isSome = true)
  ∧ (findTextRange demoGapDoc ['o', 'W'] 1 = none ↔
      (matchPositionsFrom (joinTexts (collectContent demoGapDoc))
        ['o', 'W'] 0).length < 1) :=
  ⟨findTextRange_no_rejection_C4.1 (flattenSegments demoGapDoc) 4 2
    (by decide) (by decide),
   findTextRange_no_rejection_C4.2 demoGapDoc ['o', 'W'] 1
    (by decide) (by decide)⟩

/-! ### Claim C3: well-formed trees flatten to an ordered, faithful
segment sequence -/

theorem joinTexts_append (a b : List Segment) :
    joinTexts (a ++ b) = joinTexts a ++ joinTexts b := by
  simp [joinTexts]

theorem wfRunsB_runSegments (elements : List ParagraphElement) :
    ∀ (lo m : Nat), wfRunsB lo elements = some m →
      segsChained lo (runSegments elements) m ∧
      joinTexts (runSegments elements) =
        (elements.filterMap fun pe => pe.textRun.map (·.content)).flatten := by
  induction elements with
  | nil =>
    intro lo m h
    rw [wfRunsB] at h
    injection h with h
    subst h
    exact ⟨Nat.le_refl _, rfl⟩
  | cons pe rest ih =>
    intro lo m h
    rcases htr : pe.textRun with _ | tr
    · have h' : wfRunsB lo rest = some m := by
        rw [wfRunsB, htr] at h
        exact h
      obtain ⟨g1, g2⟩ := ih lo m h'
      have hrs : runSegments (pe :: rest) = runSegments rest := by
        simp [runSegments, List.filterMap_cons, htr]
      have hdr : ((pe :: rest).filterMap fun q => q.textRun.map (·.content)) =
          rest.filterMap fun q => q.textRun.map (·.content) := by
        simp [List.filterMap_cons, htr]
      rw [hrs, hdr]
      exact ⟨g1, g2⟩
    · rcases hsi : pe.startIndex with _ | s
      · rw [wfRunsB, htr, hsi] at h
        exact Option.noConfusion h
      · rcases hei : pe.endIndex with _ | e
        · rw [wfRunsB, htr, hsi, hei] at h
          exact Option.noConfusion h
        · have h' : (if lo ≤ s ∧ e = s + tr.content.length then
              wfRunsB e rest else none) = some m := by
            rw [wfRunsB, htr, hsi, hei] at h
            exact h
          by_cases hc : lo ≤ s ∧ e = s + tr.content.length
          · rw [if_pos hc] at h'
            obtain ⟨g1, g2⟩ := ih e m h'
            have hdr : ((pe :: rest).filterMap fun q =>
                q.textRun.map (·.content)) =
                tr.content :: rest.filterMap fun q =>
                  q.textRun.map (·.content) := by
              simp [List.filterMap_cons, htr]
            by_cases hemp : tr.content = []
            · have hrs : runSegments (pe :: rest) = runSegments rest := by
                simp [runSegments, List.filterMap_cons, htr, hsi, hei, hemp]
              rw [hrs, hdr, List.flatten_cons, hemp, List.nil_append]
              refine ⟨?_, g2⟩
              have hle : lo ≤ e := by
                have he0 : e = s := by
                  rw [hc.2, hemp]
                  simp
                have := hc.1
                omega
              exact segsChained_weaken _ _ _ _ _ g1 hle (Nat.le_refl _)
            · have hrs : runSegments (pe :: rest) =
                  ⟨tr.content, s, e⟩ :: runSegments rest := by
                simp [runSegments, List.filterMap_cons, htr, hsi, hei, hemp]
              rw [hrs, hdr, List.flatten_cons]
              constructor
              · refine ⟨hc.1, hemp, ?_⟩
                have hse : (⟨tr.content, s, e⟩ : Segment).start +
                    (⟨tr.content, s, e⟩ : Segment).text.length = e := by
                  simp [hc.2]
                rw [hse]
                exact g1
              · rw [joinTexts, List.map_cons, List.flatten_cons]
                rw [joinTexts] at g2
                rw [g2]
          · rw [if_neg hc] at h'
            exact Option.noConfusion h'

mutual

theorem wfContentB_collect : ∀ (c : List Element) (lo hi : Nat),
    wfContentB lo c = some hi →
    segsChained lo (collectContent c) hi ∧
    joinTexts (collectContent c) = (docRunTexts c).flatten
  | [], lo, hi, h => by
    rw [wfContentB] at h
    injection h with h
    subst h
    exact ⟨Nat.le_refl _, rfl⟩
  | el :: rest, lo, hi, h => by
    rw [wfContentB] at h
    cases hel : wfElementB lo el with
    | none =>
      rw [hel] at h
      exact Option.noConfusion h
    | some m =>
      rw [hel] at h
      obtain ⟨h1, h2⟩ := wfElementB_collect el lo m hel
      obtain ⟨h3, h4⟩ := wfContentB_collect rest m hi h
      constructor
      · rw [collectContent]
        exact segsChained_append _ _ _ _ _ h1 h3
      · rw [collectContent, docRunTexts, joinTexts_append,
          List.flatten_append, h2, h4]

theorem wfElementB_collect : ∀ (el : Element) (lo hi : Nat),
    wfElementB lo el = some hi →
    segsChained lo (collectElement el) hi ∧
    joinTexts (collectElement el) = (docElementRunTexts el).flatten
  | Element.mk si ei p t, lo, hi, h => by
    cases p with
    | none =>
      cases t with
      | none =>
        have h' : (some lo : Option Nat) = some hi := h
        injection h' with h'
        subst h'
        exact ⟨Nat.le_refl lo, rfl⟩
      | some rows =>
        have h' : wfRowsB lo rows = some hi := h
        obtain ⟨h1, h2⟩ := wfRowsB_collect rows lo hi h'
        exact ⟨h1, h2⟩
    | some para =>
      cases t with
      | none =>
        have h' : (match wfRunsB lo para.elements with
                   | some m => some m
                   | none => none) = some hi := h
        cases hr : wfRunsB lo para.elements with
        | none =>
          rw [hr] at h'
          exact Option.noConfusion h'
        | some m =>
          rw [hr] at h'
          injection h' with h'
          rw [← h']
          obtain ⟨h1, h2⟩ := wfRunsB_runSegments para.elements lo m hr
          have hce : collectElement (Element.mk si ei (some para) none) =
              runSegments para.elements ++ [] := rfl
          have hdr : docElementRunTexts (Element.mk si ei (some para) none) =
              (List.filterMap (fun pe : ParagraphElement =>
                Option.map (fun tr : TextRun => tr.content) pe.textRun)
                para.elements) ++ [] := rfl
          rw [hce, hdr, List.append_nil, List.append_nil]
          exact ⟨h1, h2⟩
      | some rows =>
        have h' : (match wfRunsB lo para.elements with
                   | some m => wfRowsB m rows
                   | none => none) = some hi := h
        cases hr : wfRunsB lo para.elements with
        | none =>
          rw [hr] at h'
          exact Option.noConfusion h'
        | some m =>
          rw [hr] at h'
          obtain ⟨h1, h2⟩ := wfRunsB_runSegments para.elements lo m hr
          obtain ⟨h3, h4⟩ := wfRowsB_collect rows m hi h'
          constructor
          · show segsChained lo
              (runSegments para.elements ++ collectRows rows) hi
            exact segsChained_append _ _ _ _ _ h1 h3
          · show joinTexts (runSegments para.elements ++ collectRows rows) =
              ((List.filterMap (fun pe : ParagraphElement =>
                Option.map (fun tr : TextRun => tr.content) pe.textRun)
                para.elements) ++ docRowsRunTexts rows).flatten
            rw [joinTexts_append, List.flatten_append, h2, h4]

theorem wfRowsB_collect : ∀ (rows : List (List TableCell)) (lo hi : Nat),
    wfRowsB lo rows = some hi →
    segsChained lo (collectRows rows) hi ∧
    joinTexts (collectRows rows) = (docRowsRunTexts rows).flatten
  | [], lo, hi, h => by
    rw [wfRowsB] at h
    injection h with h
    subst h
    exact ⟨Nat.le_refl _, rfl⟩
  | r :: rest, lo, hi, h => by
    rw [wfRowsB] at h
    cases hcr : wfCellsB lo r with
    | none =>
      rw [hcr] at h
      exact Option.noConfusion h
    | some m =>
      rw [hcr] at h
      obtain ⟨h1, h2⟩ := wfCellsB_collect r lo m hcr
      obtain ⟨h3, h4⟩ := wfRowsB_collect rest m hi h
      constructor
      · rw [collectRows]
        exact segsChained_append _ _ _ _ _ h1 h3
      · rw [collectRows, docRowsRunTexts, joinTexts_append,
          List.flatten_append, h2, h4]

theorem wfCellsB_collect : ∀ (cells : List TableCell) (lo hi : Nat),
    wfCellsB lo cells = some hi →
    segsChained lo (collectCells cells) hi ∧
    joinTexts (collectCells cells) = (docCellsRunTexts cells).flatten
  | [], lo, hi, h => by
    rw [wfCellsB] at h
    injection h with h
    subst h
    exact ⟨Nat.le_refl _, rfl⟩
  | c :: rest, lo, hi, h => by
    rw [wfCellsB] at h
    cases hcc : wfCellB lo c with
    | none =>
      rw [hcc] at h
      exact Option.noConfusion h
    | some m =>
      rw [hcc] at h
      obtain ⟨h1, h2⟩ := wfCellB_collect c lo m hcc
      obtain ⟨h3, h4⟩ := wfCellsB_collect rest m hi h
      constructor
      · rw [collectCells]
        exact segsChained_append _ _ _ _ _ h1 h3
      · rw [collectCells, docCellsRunTexts, joinTexts_append,
          List.flatten_append, h2, h4]

theorem wfCellB_collect : ∀ (cell : TableCell) (lo hi : Nat),
    wfCellB lo cell = some hi →
    segsChained lo (collectCellContent cell) hi ∧
    joinTexts (collectCellContent cell) = (docCellRunTexts cell).flatten
  | TableCell.mk si ei content, lo, hi, h => by
    rw [wfCellB] at h
    exact wfContentB_collect content lo hi h

end

theorem segsChained_texts_ne (segs : List Segment) :
    ∀ (lo hi : Nat), segsChained lo segs hi →
      ∀ s ∈ segs, s.text ≠ [] := by
  induction segs with
  | nil => intro lo hi _ s hs; simp at hs
  | cons a rest ih =>
    intro lo hi h s hs
    obtain ⟨h1, h2, h3⟩ := h
    rcases List.mem_cons.mp hs with rfl | hs2
    · exact h2
    · exact ih _ _ h3 s hs2

/-- C3: for a well-formed tree (runs laid out left to right with correct
recorded indices — "sibling ranges contiguous, non-overlapping, in
document order"), flattening (collecting one segment per text run through
paragraphs and every table row's every cell, then sorting by ascending
start) reconstructs exactly the concatenation of the original text runs in
document order, and the resulting segments are in strictly ascending start
order. -/
theorem flatten_roundTrip_C3 (content : List Element) (hi : Nat)
    (h : wfContentB 0 content = some hi) :
    joinTexts (flattenSegments content) = (docRunTexts content).flatten
  ∧ (flattenSegments content).Pairwise (fun a b => a.start < b.start) := by
  obtain ⟨hchain, hjoin⟩ := wfContentB_collect content 0 hi h
  have hsorted : (collectContent content).Pairwise segLe := by
    have hp := segsChained_pairwise_start (collectContent content) 0 hi hchain
    exact hp.imp fun hab => by
      unfold segLe
      omega
  have hid : flattenSegments content = collectContent content :=
    List.Sorted.insertionSort_eq hsorted
  rw [hid]
  refine ⟨hjoin, ?_⟩
  have hp := segsChained_pairwise_start (collectContent content) 0 hi hchain
  have hne := segsChained_texts_ne (collectContent content) 0 hi hchain
  refine hp.imp_of_mem ?_
  intro a b ha hb hab
  have : a.text ≠ [] := hne a ha
  have hlen : 1 ≤ a.text.length := by
    cases he : a.text with
    | nil => exact absurd he this
    | cons c cs => simp
  omega

/-- C3 witness: the round trip evaluated on a document with a paragraph
and a table (`demoFlattenDoc`). -/
theorem flatten_roundTrip_C3_witness :
    joinTexts (flattenSegments demoFlattenDoc) =
      (docRunTexts demoFlattenDoc).flatten
  ∧ (flattenSegments demoFlattenDoc).Pairwise
      (fun a b => a.start < b.start) :=
  flatten_roundTrip_C3 demoFlattenDoc 15 (by decide)

/-! ### Claim C2: occurrence search -/

theorem flattenSegments_eq_of_wf (content : List Element) (hi : Nat)
    (h : wfContentB 0 content = some hi) :
    flattenSegments content = collectContent content := by
  obtain ⟨hchain, _⟩ := wfContentB_collect content 0 hi h
  have hsorted : (collectContent content).Pairwise segLe := by
    have hp := segsChained_pairwise_start (collectContent content) 0 hi hchain
    exact hp.imp fun hab => by
      unfold segLe
      omega
  exact List.Sorted.insertionSort_eq hsorted

theorem mappedPairAt_proj (segs : List Segment) (L p : Nat)
    (r : Nat × Nat) (h : mappedPairAt segs L p = some r) :
    mapStartSpec segs p = some r.1 := by
  rw [mappedPairAt] at h
  cases ha : mapStartSpec segs p with
  | none => rw [ha] at h; exact Option.noConfusion h
  | some a =>
    rw [ha] at h
    cases hb : mapStartSpec segs (p + L - 1) with
    | none => rw [hb] at h; exact Option.noConfusion h
    | some b =>
      rw [hb] at h
      injection h with h
      rw [← h]

/-- C2 (amended): for a well-formed tree and a non-empty needle,
`findTextRange` returns the `k`-th occurrence counted 1-indexed left to
right where the scan resumes one character past the previous occurrence's
start — successive counted occurrences may therefore overlap; the returned
start offsets are strictly increasing in `k`; and the result is `null`
exactly for `k` beyond the count of such (possibly overlapping)
occurrences. -/
theorem findTextRange_occurrence_C2 (content : List Element)
    (needle : List Char) (hi : Nat)
    (hwf : wfContentB 0 content = some hi) (hne : needle ≠ []) :
    (∀ k, 1 ≤ k →
       findTextRange content needle k =
         ((matchPositionsFrom (joinTexts (collectContent content))
             needle 0)[k - 1]?).bind
           (fun p => mappedPairAt (collectContent content)
             needle.length p))
  ∧ (∀ k r r', 1 ≤ k →
       findTextRange content needle k = some r →
       findTextRange content needle (k + 1) = some r' →
       r.1 < r'.1)
  ∧ (∀ k, (matchPositionsFrom (joinTexts (collectContent content))
         needle 0).length < k →
       findTextRange content needle k = none) := by
  have hflat := flattenSegments_eq_of_wf content hi hwf
  have hchain := (wfContentB_collect content 0 hi hwf).1
  have heq : ∀ k, 1 ≤ k →
      findTextRange content needle k =
        ((matchPositionsFrom (joinTexts (collectContent content))
            needle 0)[k - 1]?).bind
          (fun p => mappedPairAt (collectContent content)
            needle.length p) := by
    intro k hk
    rw [findTextRange_eq content needle k hne hk, hflat]
  refine ⟨heq, ?_, ?_⟩
  · intro k r r' hk hr hr'
    rw [heq k hk] at hr
    rw [heq (k + 1) (by omega)] at hr'
    set mp := matchPositionsFrom (joinTexts (collectContent content))
      needle 0 with hmp
    cases hp : mp[k - 1]? with
    | none => rw [hp] at hr; exact Option.noConfusion hr
    | some p =>
      cases hp' : mp[k]? with
      | none =>
        rw [show k + 1 - 1 = k by omega, hp'] at hr'
        exact Option.noConfusion hr'
      | some p' =>
        rw [hp] at hr
        rw [show k + 1 - 1 = k by omega, hp'] at hr'
        rw [Option.some_bind] at hr hr'
        have hpa := mappedPairAt_proj _ _ _ _ hr
        have hpb := mappedPairAt_proj _ _ _ _ hr'
        have hk1 : k - 1 < mp.length := by
          by_contra hc
          rw [List.getElem?_eq_none (by omega)] at hp
          exact Option.noConfusion hp
        have hk2 : k < mp.length := by
          by_contra hc
          rw [List.getElem?_eq_none (by omega)] at hp'
          exact Option.noConfusion hp'
        have hlt : p < p' := by
          have hpw := matchPositionsFrom_sorted
            (joinTexts (collectContent content)) needle 0
          rw [← hmp] at hpw
          have := List.pairwise_iff_getElem.mp hpw (k - 1) k hk1 hk2
            (by omega)
          rw [List.getElem?_eq_getElem hk1] at hp
          rw [List.getElem?_eq_getElem hk2] at hp'
          injection hp with hp
          injection hp' with hp'
          rw [hp, hp'] at this
          exact this
        exact mapStartSpec_mono (collectContent content) 0 hi p p'
          r.1 r'.1 hchain hlt hpa hpb
  · intro k hlen
    have hk : 1 ≤ k := by omega
    rw [heq k hk, List.getElem?_eq_none (by omega)]
    rfl

/-- C2 witness: the amended statement instantiated on the `"aaa"` /
needle `"aa"` document: occurrence 2 is the overlapping match at full-text
position 1 (document range `[2,4)`), and occurrence 3 is `null`. -/
theorem findTextRange_occurrence_C2_witness :
    findTextRange demoAaaDoc ['a', 'a'] 2 =
      ((matchPositionsFrom (joinTexts (collectContent demoAaaDoc))
          ['a', 'a'] 0)[2 - 1]?).bind
        (fun p => mappedPairAt (collectContent demoAaaDoc) 2 p)
  ∧ findTextRange demoAaaDoc ['a', 'a'] 3 = none := by
  have h := findTextRange_occurrence_C2 demoAaaDoc ['a', 'a'] 4
    (by decide) (by decide)
  exact ⟨h.1 2 (by omega), h.2.2 3 (by decide)⟩

/-! ### Claim C1: descending-order batches -/

theorem gatherGo_cons_none (ts0 : Nat) (acc : List Char)
    (pe : ParagraphElement) (rest : List ParagraphElement)
    (h : pe.textRun = none) :
    gatherGo ts0 acc (pe :: rest) = gatherGo ts0 acc rest := by
  rw [gatherGo, h]

theorem gatherGo_cons_noStart (ts0 : Nat) (acc : List Char)
    (pe : ParagraphElement) (rest : List ParagraphElement)
    (tr : TextRun) (h : pe.textRun = some tr)
    (h2 : pe.startIndex = none) :
    gatherGo ts0 acc (pe :: rest) = gatherGo ts0 acc rest := by
  rw [gatherGo, h, h2]

theorem gatherGo_cons_run (ts0 : Nat) (acc : List Char)
    (pe : ParagraphElement) (rest : List ParagraphElement)
    (tr : TextRun) (s : Nat) (h : pe.textRun = some tr)
    (h2 : pe.startIndex = some s) :
    gatherGo ts0 acc (pe :: rest) =
      if tr.content = [] then gatherGo ts0 acc rest
      else gatherGo (if acc = [] then s else ts0) (acc ++ tr.content) rest := by
  rw [gatherGo, h, h2]

theorem gatherGo_bound (pes : List ParagraphElement) :
    ∀ (lo m ts0 : Nat) (acc : List Char), wfRunsB lo pes = some m →
      (acc ≠ [] → ts0 + acc.length ≤ lo →
        (gatherGo ts0 acc pes).1 = ts0 ∧
        (gatherGo ts0 acc pes).1 + (gatherGo ts0 acc pes).2.length ≤ m)
    ∧ (acc = [] → (gatherGo ts0 acc pes).2 ≠ [] →
        lo ≤ (gatherGo ts0 acc pes).1 ∧
        (gatherGo ts0 acc pes).1 + (gatherGo ts0 acc pes).2.length ≤ m) := by
  induction pes with
  | nil =>
    intro lo m ts0 acc h
    rw [wfRunsB] at h
    injection h with h
    subst h
    rw [gatherGo]
    constructor
    · intro _ hle
      exact ⟨rfl, hle⟩
    · intro hacc hne
      exact absurd hacc hne
  | cons pe rest ih =>
    intro lo m ts0 acc h
    rcases htr : pe.textRun with _ | tr
    · have h' : wfRunsB lo rest = some m := by
        rw [wfRunsB, htr] at h
        exact h
      rw [gatherGo_cons_none ts0 acc pe rest htr]
      exact ih lo m ts0 acc h'
    · rcases hsi : pe.startIndex with _ | s
      · rw [wfRunsB, htr, hsi] at h
        exact Option.noConfusion h
      · rcases hei : pe.endIndex with _ | e
        · rw [wfRunsB, htr, hsi, hei] at h
          exact Option.noConfusion h
        · have h' : (if lo ≤ s ∧ e = s + tr.content.length then
              wfRunsB e rest else none) = some m := by
            rw [wfRunsB, htr, hsi, hei] at h
            exact h
          by_cases hc : lo ≤ s ∧ e = s + tr.content.length
          · rw [if_pos hc] at h'
            rw [gatherGo_cons_run ts0 acc pe rest tr s htr hsi]
            by_cases hemp : tr.content = []
            · rw [if_pos hemp]
              have he : e = s := by
                rw [hc.2, hemp]
                simp
              constructor
              · intro hne hle
                exact (ih e m ts0 acc h').1 hne (by omega)
              · intro hacc hne
                obtain ⟨g1, g2⟩ := (ih e m ts0 acc h').2 hacc hne
                exact ⟨by omega, g2⟩
            · rw [if_neg hemp]
              constructor
              · intro hne hle
                rw [if_neg hne]
                refine (ih e m ts0 (acc ++ tr.content) h').1
                  (by simp [hemp]) ?_
                rw [List.length_append]
                omega
              · intro hacc _
                rw [if_pos hacc]
                obtain ⟨g1, g2⟩ := (ih e m s (acc ++ tr.content) h').1
                  (by simp [hemp]) (by rw [hacc]; simp; omega)
                refine ⟨?_, g2⟩
                rw [g1]
                exact hc.1
          · rw [if_neg hc] at h'
            exact Option.noConfusion h'

theorem markerMatch2_ne (t : List Char) (n : Nat)
    (h : markerMatch2 t = some n) : t ≠ [] := by
  intro he
  subst he
  exact Option.noConfusion h

theorem markerDeleteRanges_cons_noPara (el : Element)
    (rest : List Element) (h : el.paragraph = none) :
    markerDeleteRanges (el :: rest) = markerDeleteRanges rest := by
  rw [markerDeleteRanges, h]

theorem markerDeleteRanges_cons_noStart (el : Element)
    (rest : List Element) (para : Paragraph)
    (h : el.paragraph = some para) (h2 : el.startIndex = none) :
    markerDeleteRanges (el :: rest) = markerDeleteRanges rest := by
  rw [markerDeleteRanges, h, h2]

theorem markerDeleteRanges_cons_para (el : Element)
    (rest : List Element) (para : Paragraph) (s : Nat)
    (h : el.paragraph = some para) (h2 : el.startIndex = some s) :
    markerDeleteRanges (el :: rest) =
      (match markerMatch2
          (trimStart (gatherParaText s para.elements).2) with
       | some markerLength =>
           ((gatherParaText s para.elements).1 +
              ((gatherParaText s para.elements).2.length -
               (trimStart (gatherParaText s para.elements).2).length),
            (gatherParaText s para.elements).1 +
              ((gatherParaText s para.elements).2.length -
               (trimStart (gatherParaText s para.elements).2).length) +
              markerLength) ::
             markerDeleteRanges rest
       | none => markerDeleteRanges rest) := by
  rw [markerDeleteRanges, h, h2]

theorem markerDeleteRanges_bounds (c : List Element) :
    ∀ (lo n : Nat), wfFlatContent lo c = some n →
      (∀ q ∈ markerDeleteRanges c, lo ≤ q.1) ∧
      (markerDeleteRanges c).Pairwise (fun a b => a.1 < b.1) := by
  induction c with
  | nil =>
    intro lo n _
    rw [markerDeleteRanges]
    exact ⟨fun q hq => absurd hq (by simp), List.Pairwise.nil⟩
  | cons el rest ih =>
    intro lo n h
    rcases hsi : el.startIndex with _ | s
    · rw [wfFlatContent, hsi] at h
      exact Option.noConfusion h
    · rcases hei : el.endIndex with _ | e
      · rw [wfFlatContent, hsi, hei] at h
        exact Option.noConfusion h
      · rw [wfFlatContent, hsi, hei] at h
        by_cases hrange : lo ≤ s ∧ s ≤ e
        · rcases hp : el.paragraph with _ | para
          · have h' : wfFlatContent e rest = some n := by
              rw [hp] at h
              have h2 : (if lo ≤ s ∧ s ≤ e then wfFlatContent e rest
                  else none) = some n := h
              rw [if_pos hrange] at h2
              exact h2
            obtain ⟨g1, g2⟩ := ih e n h'
            rw [markerDeleteRanges_cons_noPara el rest hp]
            exact ⟨fun q hq => by
              have := g1 q hq
              omega, g2⟩
          · rw [hp] at h
            have h2 : (if lo ≤ s ∧ s ≤ e then
                (match wfRunsB s para.elements with
                 | some m =>
                     if m ≤ e then wfFlatContent e rest else none
                 | none => none) else none) = some n := h
            rw [if_pos hrange] at h2
            cases hr : wfRunsB s para.elements with
            | none =>
              rw [hr] at h2
              exact Option.noConfusion h2
            | some m =>
              have h' : (if m ≤ e then wfFlatContent e rest else none)
                  = some n := by
                rw [hr] at h2
                exact h2
              by_cases hme : m ≤ e
              · rw [if_pos hme] at h'
                obtain ⟨g1, g2⟩ := ih e n h'
                rw [markerDeleteRanges_cons_para el rest para s hp hsi]
                cases hmm : markerMatch2
                    (trimStart (gatherParaText s para.elements).2) with
                | none => exact ⟨fun q hq => by
                    have := g1 q hq
                    omega, g2⟩
                | some markerLength =>
                  have htne := markerMatch2_ne _ _ hmm
                  have hgne : (gatherParaText s para.elements).2 ≠ [] := by
                    intro hg
                    rw [hg] at htne
                    exact htne rfl
                  obtain ⟨b1, b2⟩ := (gatherGo_bound para.elements s m s
                    [] hr).2 rfl hgne
                  have b1' : s ≤ (gatherParaText s para.elements).1 := b1
                  have b2' : (gatherParaText s para.elements).1 +
                      (gatherParaText s para.elements).2.length ≤ m := b2
                  have htrim : (trimStart
                      (gatherParaText s para.elements).2).length ≥ 1 := by
                    cases ht : trimStart (gatherParaText s para.elements).2 with
                    | nil => exact absurd ht htne
                    | cons a as => simp
                  have htle : (trimStart
                      (gatherParaText s para.elements).2).length ≤
                      (gatherParaText s para.elements).2.length :=
                    (List.dropWhile_sublist jsWhitespace).length_le
                  constructor
                  · intro q hq
                    rcases List.mem_cons.mp hq with rfl | hq2
                    · simp only []
                      omega
                    · have := g1 q hq2
                      omega
                  · refine List.pairwise_cons.mpr ⟨fun q hq => ?_, g2⟩
                    have := g1 q hq
                    simp only []
                    omega
              · rw [if_neg hme] at h'
                exact Option.noConfusion h'
        · have h2 : (if lo ≤ s ∧ s ≤ e then
              (match el.paragraph with
               | some para =>
                   (match wfRunsB s para.elements with
                    | some m =>
                        if m ≤ e then wfFlatContent e rest else none
                    | none => none)
               | none => wfFlatContent e rest) else none) = some n := h
          rw [if_neg hrange] at h2
          exact Option.noConfusion h2

theorem sortedCellInsertions_desc (tableRows : List (List TableCell))
    (headers : List (List Char)) (rows : List (List (List Char)))
    (boldHeaders boldTotalRow : Bool)
    (hnd : ((collectCellInsertions tableRows headers rows boldHeaders
      boldTotalRow).map (·.index)).Nodup) :
    (sortedCellInsertions tableRows headers rows boldHeaders
      boldTotalRow).Pairwise (fun a b => b.index < a.index) := by
  have hsorted : (sortedCellInsertions tableRows headers rows boldHeaders
      boldTotalRow).Pairwise insDesc :=
    List.sorted_insertionSort insDesc _
  have hperm := List.perm_insertionSort insDesc
    (collectCellInsertions tableRows headers rows boldHeaders boldTotalRow)
  have hnd2 : ((sortedCellInsertions tableRows headers rows boldHeaders
      boldTotalRow).map (·.index)).Nodup :=
    ((hperm.map (·.index)).nodup_iff).mpr hnd
  have hne : (sortedCellInsertions tableRows headers rows boldHeaders
      boldTotalRow).Pairwise (fun a b => a.index ≠ b.index) :=
    List.pairwise_map.mp hnd2
  exact (hsorted.and hne).imp fun hab => by
    have h1 : insDesc _ _ := hab.1
    unfold insDesc at h1
    omega

/-- C1: the two deletion/insertion batches named by the claim are in
strictly descending start-offset order.  (a) The marker-deletion batch of
`detectAndFormatLists` phase 2: the delete ranges are built in document
order and reversed before submission, so under the claim's assumption
(elements listed in ascending document order, modelled by
`wfFlatContent`) the submitted list is strictly descending.  (b) The
cell-text-insertion batch of `createTableWithData`: the collected
insertions are sorted by descending index, so with distinct cell start
offsets the batch is strictly descending; the submitted requests are
exactly that sorted list's `insertText` requests. -/
theorem descendingBatches_C1 (content : List Element) (n : Nat)
    (hwf : wfFlatContent 0 content = some n)
    (tableRows : List (List TableCell)) (headers : List (List Char))
    (rows : List (List (List Char))) (boldHeaders boldTotalRow : Bool)
    (hnd : ((collectCellInsertions tableRows headers rows boldHeaders
      boldTotalRow).map (·.index)).Nodup) :
    ((markerDeleteRanges content).reverse).Pairwise
      (fun a b => b.1 < a.1)
  ∧ (sortedCellInsertions tableRows headers rows boldHeaders
      boldTotalRow).Pairwise (fun a b => b.index < a.index)
  ∧ tableTextRequests tableRows headers rows boldHeaders boldTotalRow =
      (sortedCellInsertions tableRows headers rows boldHeaders
        boldTotalRow).map
        (fun cell => Request.insertText (some cell.index) cell.text) := by
  refine ⟨?_, sortedCellInsertions_desc tableRows headers rows boldHeaders
    boldTotalRow hnd, rfl⟩
  have hp := (markerDeleteRanges_bounds content 0 n hwf).2
  rw [List.pairwise_reverse]
  exact hp

/-- C1 witness: the marker-deletion batch of the two-marker-paragraph
document and the insertion batch of a two-cell header row, both strictly
descending. -/
theorem descendingBatches_C1_witness :
    ((markerDeleteRanges demoListDoc).reverse).Pairwise
      (fun a b => b.1 < a.1)
  ∧ (sortedCellInsertions demoInsertRows [['A'], ['B']] [] true
      true).Pairwise (fun a b => b.index < a.index)
  ∧ tableTextRequests demoInsertRows [['A'], ['B']] [] true true =
      (sortedCellInsertions demoInsertRows [['A'], ['B']] [] true
        true).map
        (fun cell => Request.insertText (some cell.index) cell.text) :=
  descendingBatches_C1 demoListDoc 13 (by decide) demoInsertRows
    [['A'], ['B']] [] true true (by decide)

/-! ### Claim C5: table location and cell bounds checks -/

theorem findTablePass1_eq (anchor : Nat) : ∀ (content : List Element),
    findTablePass1 anchor content =
      match content.find? (tableInWindow anchor) with
      | some el => extractTable el
      | none => none := by
  intro content
  induction content with
  | nil => rfl
  | cons el rest ih =>
    rcases el with ⟨si, ei, p, t⟩
    rcases t with _ | tb
    · have hf : tableInWindow anchor (Element.mk si ei p none) = false := by
        rcases si with _ | s <;> rcases ei with _ | e <;> rfl
      rw [List.find?_cons_of_neg _ (by rw [hf]; exact Bool.false_ne_true)]
      rw [show findTablePass1 anchor (Element.mk si ei p none :: rest) =
        findTablePass1 anchor rest from by
          rcases si with _ | s <;> rcases ei with _ | e <;> (rw [findTablePass1]; rfl)]
      exact ih
    · rcases si with _ | s
      · have hf : tableInWindow anchor
            (Element.mk none ei p (some tb)) = false := by
          rcases ei with _ | e <;> rfl
        rw [List.find?_cons_of_neg _ (by rw [hf]; exact Bool.false_ne_true)]
        rw [show findTablePass1 anchor
            (Element.mk none ei p (some tb) :: rest) =
          findTablePass1 anchor rest from by
            rcases ei with _ | e <;> (rw [findTablePass1]; rfl)]
        exact ih
      · rcases ei with _ | e
        · rw [List.find?_cons_of_neg _ (by
            rw [show tableInWindow anchor
              (Element.mk (some s) none p (some tb)) = false from rfl]
            exact Bool.false_ne_true)]
          rw [show findTablePass1 anchor
              (Element.mk (some s) none p (some tb) :: rest) =
            findTablePass1 anchor rest from by rw [findTablePass1]; rfl]
          exact ih
        · by_cases hw : anchor ≤ s + 10 ∧ s ≤ anchor + 10
          · rw [List.find?_cons_of_pos _ (by
              show decide (anchor ≤ s + 10 ∧ s ≤ anchor + 10) = true
              exact decide_eq_true hw)]
            rw [show findTablePass1 anchor
                (Element.mk (some s) (some e) p (some tb) :: rest) =
              (if anchor ≤ s + 10 ∧ s ≤ anchor + 10 then some (tb, s, e)
               else if s = anchor then some (tb, s, e)
               else findTablePass1 anchor rest) from by
                rw [findTablePass1]
                rfl]
            rw [if_pos hw]
            rfl
          · rw [List.find?_cons_of_neg _ (by
              show ¬ decide (anchor ≤ s + 10 ∧ s ≤ anchor + 10) = true
              simp only [decide_eq_true_eq]
              exact hw)]
            rw [show findTablePass1 anchor
                (Element.mk (some s) (some e) p (some tb) :: rest) =
              (if anchor ≤ s + 10 ∧ s ≤ anchor + 10 then some (tb, s, e)
               else if s = anchor then some (tb, s, e)
               else findTablePass1 anchor rest) from by
                rw [findTablePass1]
                rfl]
            rw [if_neg hw, if_neg (by
              intro hs
              exact hw (by omega))]
            exact ih

theorem findTablePass2_eq (anchor : Nat) : ∀ (content : List Element),
    findTablePass2 anchor content =
      match content.find? (tableAtOrAfter anchor) with
      | some el => extractTable el
      | none => none := by
  intro content
  induction content with
  | nil => rfl
  | cons el rest ih =>
    rcases el with ⟨si, ei, p, t⟩
    rcases t with _ | tb
    · have hf : tableAtOrAfter anchor (Element.mk si ei p none) = false := by
        rcases si with _ | s <;> rcases ei with _ | e <;> rfl
      rw [List.find?_cons_of_neg _ (by rw [hf]; exact Bool.false_ne_true)]
      rw [show findTablePass2 anchor (Element.mk si ei p none :: rest) =
        findTablePass2 anchor rest from by
          rcases si with _ | s <;> rcases ei with _ | e <;> (rw [findTablePass2]; rfl)]
      exact ih
    · rcases si with _ | s
      · have hf : tableAtOrAfter anchor
            (Element.mk none ei p (some tb)) = false := by
          rcases ei with _ | e <;> rfl
        rw [List.find?_cons_of_neg _ (by rw [hf]; exact Bool.false_ne_true)]
        rw [show findTablePass2 anchor
            (Element.mk none ei p (some tb) :: rest) =
          findTablePass2 anchor rest from by
            rcases ei with _ | e <;> (rw [findTablePass2]; rfl)]
        exact ih
      · rcases ei with _ | e
        · rw [List.find?_cons_of_neg _ (by
            rw [show tableAtOrAfter anchor
              (Element.mk (some s) none p (some tb)) = false from rfl]
            exact Bool.false_ne_true)]
          rw [show findTablePass2 anchor
              (Element.mk (some s) none p (some tb) :: rest) =
            findTablePass2 anchor rest from by rw [findTablePass2]; rfl]
          exact ih
        · by_cases hw : anchor ≤ s
          · rw [List.find?_cons_of_pos _ (by
              show decide (anchor ≤ s) = true
              exact decide_eq_true hw)]
            rw [show findTablePass2 anchor
                (Element.mk (some s) (some e) p (some tb) :: rest) =
              (if anchor ≤ s then some (tb, s, e)
               else findTablePass2 anchor rest) from by rw [findTablePass2]; rfl]
            rw [if_pos hw]
            rfl
          · rw [List.find?_cons_of_neg _ (by
              show ¬ decide (anchor ≤ s) = true
              simp only [decide_eq_true_eq]
              exact hw)]
            rw [show findTablePass2 anchor
                (Element.mk (some s) (some e) p (some tb) :: rest) =
              (if anchor ≤ s then some (tb, s, e)
               else findTablePass2 anchor rest) from by rw [findTablePass2]; rfl]
            rw [if_neg hw]
            exact ih

theorem tableInWindow_extract (anchor : Nat) (el : Element)
    (h : tableInWindow anchor el = true) :
    ∃ tb s e, extractTable el = some (tb, s, e) := by
  rcases el with ⟨si, ei, p, t⟩
  rcases t with _ | tb
  · rcases si with _ | s <;> rcases ei with _ | e <;>
      exact Bool.noConfusion h
  · rcases si with _ | s
    · rcases ei with _ | e <;> exact Bool.noConfusion h
    · rcases ei with _ | e
      · exact Bool.noConfusion h
      · exact ⟨tb, s, e, rfl⟩

/-- C5: the engine's table location and cell bounds checks.  (a)
`findTableAtIndex` locates the first table element whose recorded start is
within ±10 offset units of the anchor, or failing that the first table
element whose start is at or after the anchor (the spec-side
`specLocateTable`).  (b) When the requested row or column index is out of
bounds for the table located by the cell lookup's ±10 window,
`getTableCellRange` returns `null` rather than throwing or returning some
other cell's range. -/
theorem tableLookup_C5 :
    (∀ (content : List Element) (anchorOffset : Nat),
       findTableAtIndex content anchorOffset =
         specLocateTable content anchorOffset)
  ∧ (∀ (content : List Element)
       (anchorOffset rowIndex columnIndex : Nat)
       (tableRows : List (List TableCell)),
       findTableWindow anchorOffset content = some tableRows →
       (tableRows[rowIndex]? = none ∨
        (∃ row, tableRows[rowIndex]? = some row ∧
          row[columnIndex]? = none)) →
       getTableCellRange content anchorOffset rowIndex columnIndex =
         none) := by
  constructor
  · intro content anchor
    unfold findTableAtIndex specLocateTable
    rw [findTablePass1_eq anchor content, findTablePass2_eq anchor content]
    cases h1 : content.find? (tableInWindow anchor) with
    | none => rfl
    | some el =>
      obtain ⟨tb, s, e, hex⟩ := tableInWindow_extract anchor el
        (List.find?_some h1)
      simp only [hex]
  · intro content anchor rowIndex columnIndex tableRows hwin hoob
    unfold getTableCellRange
    rw [hwin]
    rcases hoob with hrow | ⟨row, hrow, hcol⟩
    · show (match tableRows[rowIndex]? with
            | none => none
            | some row =>
              (match row[columnIndex]? with
               | none => none
               | some cell => some (cellRangeInfo cell))) = none
      rw [hrow]
    · show (match tableRows[rowIndex]? with
            | none => none
            | some row =>
              (match row[columnIndex]? with
               | none => none
               | some cell => some (cellRangeInfo cell))) = none
      rw [hrow]
      show (match row[columnIndex]? with
            | none => none
            | some cell => some (cellRangeInfo cell)) = none
      rw [hcol]

/-- C5 witness: a 2×3 table at offset 50; locating it from the drifted
anchor 48 agrees with the spec-side two-phase search, and looking up the
out-of-bounds row 5 returns `null`. -/
theorem tableLookup_C5_witness :
    findTableAtIndex demoTable2x3Doc 48 = specLocateTable demoTable2x3Doc 48
  ∧ getTableCellRange demoTable2x3Doc 50 5 0 = none :=
  ⟨tableLookup_C5.1 demoTable2x3Doc 48,
   tableLookup_C5.2 demoTable2x3Doc 50 5 0
     [[TableCell.mk (some 51) (some 57) [],
       TableCell.mk (some 57) (some 63) [],
       TableCell.mk (some 63) (some 69) []],
      [TableCell.mk (some 70) (some 76) [],
       TableCell.mk (some 76) (some 82) [],
       TableCell.mk (some 82) (some 88) []]] (by rfl)
     (Or.inl (by rfl))⟩

/-! ### Claim C6: cell ranges -/

theorem cellRangeInfo_eq (cell : TableCell) :
    cellRangeInfo cell =
      { cellStartIndex := cell.startIndex
        cellEndIndex := cell.endIndex
        contentStartIndex :=
          (cell.content.head?.bind Element.startIndex) <|> cell.startIndex
        contentEndIndex :=
          (cell.content.getLast?.bind Element.endIndex) <|> cell.endIndex
        hasContent := cellHasContent cell.content } := by
  rcases cell with ⟨cs, ce, cont⟩
  rcases cont with _ | ⟨x, xs⟩
  · rfl
  · rcases hgl : (x :: xs : List Element).getLast? with _ | y <;>
      simp [cellRangeInfo, hgl, TableCell.startIndex, TableCell.endIndex,
        TableCell.content]

theorem cellHasContent_iff (content : List Element) :
    cellHasContent content = true ↔
      ∃ el ∈ content, ∃ para, el.paragraph = some para ∧
        ∃ pe ∈ para.elements, ∃ tr, pe.textRun = some tr ∧
          tr.content ≠ [] ∧ ∃ ch ∈ tr.content, jsWhitespace ch = false := by
  rw [cellHasContent, List.any_eq_true]
  constructor
  · rintro ⟨el, hel, hb⟩
    rcases el with ⟨esi, eei, ep, et⟩
    rcases ep with _ | para
    · exact Bool.noConfusion hb
    · have hb' : (para.elements.any fun pe =>
          match pe.textRun with
          | some tr => tr.content ≠ [] && tr.content.any (!jsWhitespace ·)
          | none => false) = true := hb
      rw [List.any_eq_true] at hb'
      obtain ⟨pe, hpe, hb2⟩ := hb'
      rcases pe with ⟨psi, pei, ptr⟩
      rcases ptr with _ | tr
      · exact Bool.noConfusion hb2
      · have hb3 : (tr.content ≠ [] &&
            tr.content.any (!jsWhitespace ·)) = true := hb2
        rw [Bool.and_eq_true] at hb3
        obtain ⟨hne, hany⟩ := hb3
        rw [List.any_eq_true] at hany
        obtain ⟨ch, hch, hns⟩ := hany
        refine ⟨Element.mk esi eei (some para) et, hel, para, rfl,
          ParagraphElement.mk psi pei (some tr), hpe, tr, rfl, ?_,
          ch, hch, ?_⟩
        · simpa using hne
        · simpa using hns
  · rintro ⟨el, hel, para, hp, pe, hpe, tr, ht, hne, ch, hch, hns⟩
    refine ⟨el, hel, ?_⟩
    rcases el with ⟨esi, eei, ep, et⟩
    have hp' : ep = some para := hp
    subst hp'
    show (para.elements.any fun pe =>
        match pe.textRun with
        | some tr => tr.content ≠ [] && tr.content.any (!jsWhitespace ·)
        | none => false) = true
    rw [List.any_eq_true]
    refine ⟨pe, hpe, ?_⟩
    rcases pe with ⟨psi, pei, ptr⟩
    have ht' : ptr = some tr := ht
    subst ht'
    show (tr.content ≠ [] && tr.content.any (!jsWhitespace ·)) = true
    rw [Bool.and_eq_true]
    refine ⟨by simpa using hne, ?_⟩
    rw [List.any_eq_true]
    exact ⟨ch, hch, by simpa using hns⟩

/-- C6, counterexample: for the located cell `[10,20)` of `demoCellDoc`
the source returns the content range `[11,20)` — running from the first
content element's recorded start to the last one's recorded end, hence
still INCLUDING the trailing structural newline (and excluding the leading
cell-boundary offset) — not the claimed "cell range minus the mandatory
trailing structural newline" `[10,19)`. -/
theorem getTableCellRange_counterexample_C6 :
    getTableCellRange demoCellDoc 10 0 0 =
      some ⟨some 10, some 20, some 11, some 20, true⟩
  ∧ (getTableCellRange demoCellDoc 10 0 0).map
      (fun info =>
        decide (info.contentStartIndex = info.cellStartIndex) &&
        decide (info.contentEndIndex =
          (fun e => e - 1) <$> info.cellEndIndex)) = some false := by
  constructor
  · rfl
  · rfl

/-- C6 (amended): for every successfully located cell,
`getTableCellRange` returns the cell's recorded range; a content range
running from the first content element's recorded start (falling back to
the cell's start) to the last content element's recorded end (falling back
to the cell's end) — a range that still includes the cell's trailing
structural newline; and a `hasContent` flag that is true iff some text run
in the cell's directly contained paragraphs has a non-whitespace
character. -/
theorem getTableCellRange_success_C6 (content : List Element)
    (tableStartIndex rowIndex columnIndex : Nat)
    (tableRows : List (List TableCell)) (row : List TableCell)
    (cell : TableCell)
    (hwin : findTableWindow tableStartIndex content = some tableRows)
    (hrow : tableRows[rowIndex]? = some row)
    (hcol : row[columnIndex]? = some cell) :
    getTableCellRange content tableStartIndex rowIndex columnIndex =
      some { cellStartIndex := cell.startIndex
             cellEndIndex := cell.endIndex
             contentStartIndex :=
               (cell.content.head?.bind Element.startIndex) <|>
                 cell.startIndex
             contentEndIndex :=
               (cell.content.getLast?.bind Element.endIndex) <|>
                 cell.endIndex
             hasContent := cellHasContent cell.content }
  ∧ (cellHasContent cell.content = true ↔
      ∃ el ∈ cell.content, ∃ para, el.paragraph = some para ∧
        ∃ pe ∈ para.elements, ∃ tr, pe.textRun = some tr ∧
          tr.content ≠ [] ∧ ∃ ch ∈ tr.content, jsWhitespace ch = false) := by
  constructor
  · unfold getTableCellRange
    rw [hwin]
    show (match tableRows[rowIndex]? with
          | none => none
          | some row =>
            (match row[columnIndex]? with
             | none => none
             | some cell => some (cellRangeInfo cell))) = _
    rw [hrow]
    show (match row[columnIndex]? with
          | none => none
          | some cell => some (cellRangeInfo cell)) = _
    rw [hcol]
    show some (cellRangeInfo cell) = _
    rw [cellRangeInfo_eq]
  · exact cellHasContent_iff cell.content

/-- C6 witness: the amended statement evaluated on `demoCellDoc`'s only
cell. -/
theorem getTableCellRange_success_C6_witness :
    getTableCellRange demoCellDoc 10 0 0 =
      some { cellStartIndex :=
               (TableCell.mk (some 10) (some 20)
                 [Element.mk (some 11) (some 20)
                   (some ⟨[⟨some 11, some 20,
                     some ⟨['1', '2', '3', '4', '5', '6', '7', '8',
                       '\n']⟩⟩]⟩) none]).startIndex
             cellEndIndex :=
               (TableCell.mk (some 10) (some 20)
                 [Element.mk (some 11) (some 20)
                   (some ⟨[⟨some 11, some 20,
                     some ⟨['1', '2', '3', '4', '5', '6', '7', '8',
                       '\n']⟩⟩]⟩) none]).endIndex
             contentStartIndex :=
               ((TableCell.mk (some 10) (some 20)
                 [Element.mk (some 11) (some 20)
                   (some ⟨[⟨some 11, some 20,
                     some ⟨['1', '2', '3', '4', '5', '6', '7', '8',
                       '\n']⟩⟩]⟩) none]).content.head?.bind
                 Element.startIndex) <|>
               (TableCell.mk (some 10) (some 20)
                 [Element.mk (some 11) (some 20)
                   (some ⟨[⟨some 11, some 20,
                     some ⟨['1', '2', '3', '4', '5', '6', '7', '8',
                       '\n']⟩⟩]⟩) none]).startIndex
             contentEndIndex :=
               ((TableCell.mk (some 10) (some 20)
                 [Element.mk (some 11) (some 20)
                   (some ⟨[⟨some 11, some 20,
                     some ⟨['1', '2', '3', '4', '5', '6', '7', '8',
                       '\n']⟩⟩]⟩) none]).content.getLast?.bind
                 Element.endIndex) <|>
               (TableCell.mk (some 10) (some 20)
                 [Element.mk (some 11) (some 20)
                   (some ⟨[⟨some 11, some 20,
                     some ⟨['1', '2', '3', '4', '5', '6', '7', '8',
                       '\n']⟩⟩]⟩) none]).endIndex
             hasContent :=
               cellHasContent
                 (TableCell.mk (some 10) (some 20)
                   [Element.mk (some 11) (some 20)
                     (some ⟨[⟨some 11, some 20,
                       some ⟨['1', '2', '3', '4', '5', '6', '7', '8',
                         '\n']⟩⟩]⟩) none]).content } :=
  (getTableCellRange_success_C6 demoCellDoc 10 0 0
    [[TableCell.mk (some 10) (some 20)
      [Element.mk (some 11) (some 20)
        (some ⟨[⟨some 11, some 20,
          some ⟨['1', '2', '3', '4', '5', '6', '7', '8', '\n']⟩⟩]⟩)
        none]]]
    [TableCell.mk (some 10) (some 20)
      [Element.mk (some 11) (some 20)
        (some ⟨[⟨some 11, some 20,
          some ⟨['1', '2', '3', '4', '5', '6', '7', '8', '\n']⟩⟩]⟩)
        none]]
    (TableCell.mk (some 10) (some 20)
      [Element.mk (some 11) (some 20)
        (some ⟨[⟨some 11, some 20,
          some ⟨['1', '2', '3', '4', '5', '6', '7', '8', '\n']⟩⟩]⟩)
        none])
    (by rfl) (by rfl) (by rfl)).1

/-! ### Claim C7: list marker grammars -/

theorem bulletGlyph_not_digit (c : Char) (h : isBulletGlyph c = true) :
    c.isDigit = false := by
  simp only [isBulletGlyph, Bool.or_eq_true, beq_iff_eq] at h
  rcases h with (h | h) | h <;> subst h <;> decide

theorem bulletGlyph_not_letter (c : Char) (h : isBulletGlyph c = true) :
    isAsciiLetter c = false := by
  simp only [isBulletGlyph, Bool.or_eq_true, beq_iff_eq] at h
  rcases h with (h | h) | h <;> subst h <;> decide

theorem digit_not_letter (c : Char) (h : c.isDigit = true) :
    isAsciiLetter c = false := by
  simp only [Char.isDigit, Bool.and_eq_true, decide_eq_true_eq] at h
  obtain ⟨h1, h2⟩ := h
  have h1' : (48 : Nat) ≤ c.val.toNat := h1
  have h2' : c.val.toNat ≤ (57 : Nat) := h2
  simp only [isAsciiLetter, Bool.or_eq_false_iff, Bool.and_eq_false_iff,
    decide_eq_false_iff_not]
  constructor
  · left
    intro hc
    have hc' : (97 : Nat) ≤ c.val.toNat := hc
    omega
  · left
    intro hc
    have hc' : (65 : Nat) ≤ c.val.toNat := hc
    omega

theorem listChain_eq_spec (t : List Char) :
    (if testsBulletMarker t then
      some ("BULLET_DISC_CIRCLE_SQUARE", bulletMarkerLen t)
    else if testsDecimalMarker t then
      some ("NUMBERED_DECIMAL_NESTED", decimalMarkerLen t)
    else if testsAlphaMarker t then
      some ("NUMBERED_UPPERALPHA_ALPHA_ROMAN", alphaMarkerLen t)
    else none) = specListGrammar t := by
  rcases t with _ | ⟨c, _ | ⟨w, _ | ⟨d, rest2⟩⟩⟩
  · rfl
  · by_cases hd : c.isDigit = true <;>
      simp [testsBulletMarker, testsDecimalMarker, testsAlphaMarker,
        specListGrammar, hd, List.takeWhile_cons, List.dropWhile_cons]
  · -- t = [c, w]
    by_cases hb : isBulletGlyph c = true
    · by_cases hw : jsWhitespace w = true
      · simp [testsBulletMarker, bulletMarkerLen, specListGrammar, hb, hw,
          List.takeWhile_cons]
      · have hdg := bulletGlyph_not_digit c hb
        have hl := bulletGlyph_not_letter c hb
        simp [testsBulletMarker, testsDecimalMarker, testsAlphaMarker,
          specListGrammar, hb, hw, hdg, hl, List.takeWhile_cons,
          List.dropWhile_cons]
    · by_cases hdg : c.isDigit = true
      · have hl := digit_not_letter c hdg
        by_cases hwd : w.isDigit = true
        · simp [testsBulletMarker, testsDecimalMarker, testsAlphaMarker,
            specListGrammar, hb, hdg, hwd, hl, List.takeWhile_cons,
            List.dropWhile_cons]
        · simp [testsBulletMarker, testsDecimalMarker, testsAlphaMarker,
            specListGrammar, hb, hdg, hwd, hl, List.takeWhile_cons,
            List.dropWhile_cons]
      · by_cases hl : isAsciiLetter c = true
        · by_cases hp : (w == '.' || w == ')') = true
          · simp [testsBulletMarker, testsDecimalMarker, testsAlphaMarker,
              specListGrammar, hb, hdg, hl, hp, List.takeWhile_cons,
              List.dropWhile_cons]
          · simp [testsBulletMarker, testsDecimalMarker, testsAlphaMarker,
              specListGrammar, hb, hdg, hl, hp, List.takeWhile_cons,
              List.dropWhile_cons]
        · simp [testsBulletMarker, testsDecimalMarker, testsAlphaMarker,
            specListGrammar, hb, hdg, hl, List.takeWhile_cons,
            List.dropWhile_cons]
  · -- t = c :: w :: d :: rest2
    by_cases hb : isBulletGlyph c = true
    · by_cases hw : jsWhitespace w = true
      · simp only [testsBulletMarker, hb, hw, Bool.and_self, if_true]
        rw [specListGrammar]
        rw [if_pos (show (isBulletGlyph c && jsWhitespace w) = true by
          simp [hb, hw])]
        simp [bulletMarkerLen, hb, hw, List.takeWhile_cons]
        omega
      · have hdg := bulletGlyph_not_digit c hb
        have hl := bulletGlyph_not_letter c hb
        simp [testsBulletMarker, testsDecimalMarker, testsAlphaMarker,
          specListGrammar, hb, hw, hdg, hl, List.takeWhile_cons,
          List.dropWhile_cons]
    · by_cases hdg : c.isDigit = true
      · have hl := digit_not_letter c hdg
        rcases hdw : (c :: w :: d :: rest2).dropWhile Char.isDigit
          with _ | ⟨p, _ | ⟨e, r3⟩⟩
        · simp [testsBulletMarker, testsDecimalMarker, testsAlphaMarker,
            specListGrammar, hb, hdg, hl, hdw, List.takeWhile_cons]
        · simp [testsBulletMarker, testsDecimalMarker, testsAlphaMarker,
            specListGrammar, hb, hdg, hl, hdw, List.takeWhile_cons]
        · by_cases hpe : ((p == '.' || p == ')') && jsWhitespace e) = true
          · obtain ⟨hp, hwe⟩ : (p == '.' || p == ')') = true ∧
                jsWhitespace e = true := by simpa using hpe
            simp [testsBulletMarker, testsDecimalMarker, testsAlphaMarker,
              specListGrammar, decimalMarkerLen, hb, hdg, hl, hdw, hp, hwe,
              List.takeWhile_cons]
            omega
          · simp [testsBulletMarker, testsDecimalMarker, testsAlphaMarker,
              specListGrammar, hb, hdg, hl, hdw, hpe, List.takeWhile_cons]
      · by_cases hl : isAsciiLetter c = true
        · by_cases hp : (w == '.' || w == ')') = true
          · by_cases hwd : jsWhitespace d = true
            · simp [testsBulletMarker, testsDecimalMarker, testsAlphaMarker,
                specListGrammar, alphaMarkerLen, hb, hdg, hl, hp, hwd,
                List.takeWhile_cons, List.dropWhile_cons]
              omega
            · simp [testsBulletMarker, testsDecimalMarker, testsAlphaMarker,
                specListGrammar, hb, hdg, hl, hp, hwd, List.takeWhile_cons,
                List.dropWhile_cons]
          · simp [testsBulletMarker, testsDecimalMarker, testsAlphaMarker,
              specListGrammar, hb, hdg, hl, hp, List.takeWhile_cons,
              List.dropWhile_cons]
        · simp [testsBulletMarker, testsDecimalMarker, testsAlphaMarker,
            specListGrammar, hb, hdg, hl, List.takeWhile_cons,
            List.dropWhile_cons]

/-- C7: for every paragraph, phase 1 of `detectAndFormatLists` classifies
the leading-whitespace-trimmed text exactly as the spec's three marker
grammars in priority order (bullet glyph + whitespace, digits + `.`/`)` +
whitespace, single letter + `.`/`)` + whitespace), first match winning,
no-grammar paragraphs producing no match, with the recorded marker length
including the trailing whitespace; in particular "1. First item\n" yields
the decimal-numbered preset with marker length 3 and "Not a list\n"
yields no match. -/
theorem detectList_C7 :
    (∀ text : List Char,
      detectListMarker text = specListGrammar (trimStart text))
  ∧ detectListMarker "1. First item\n".toList =
      some ("NUMBERED_DECIMAL_NESTED", 3)
  ∧ detectListMarker "Not a list\n".toList = none :=
  ⟨fun text => listChain_eq_spec (trimStart text), by rfl, by rfl⟩

/-! ### Claim C8: no-op elision -/

/-- C8: a text-style builder with zero defined style options returns no
request (`.ok none`, not an empty one); likewise the paragraph-style
builder returns `none`; inserting an empty string issues no remote call
and returns an empty result; and an empty request list short-circuits
`executeBatchUpdate` with an empty result and no remote call. -/
theorem noOpElision_C8 :
    (∀ (si ei : Option Nat) (hexFn : String → Option RgbColor),
      buildUpdateTextStyleRequest si ei {} hexFn = .ok none)
  ∧ (∀ si ei : Option Nat,
      buildUpdateParagraphStyleRequest si ei {} = none)
  ∧ (∀ i : Nat,
      insertText [] i = ⟨BatchResponse.emptyResponse, [], false⟩)
  ∧ executeBatchUpdate [] = ⟨BatchResponse.emptyResponse, [], false⟩ :=
  ⟨fun _ _ _ => rfl, fun _ _ => rfl, fun _ => rfl, rfl⟩

/-! ### Claim C10: oversized batches are never split -/

/-- C10: `executeBatchUpdate` never splits or rejects an oversized batch:
every non-empty request list — including lists longer than
`MAX_BATCH_UPDATE_REQUESTS` — is submitted whole as one single remote
call, and exceeding the limit only sets the warning flag. -/
theorem oversizedBatch_C10 (reqs : List Request) (h : reqs ≠ []) :
    executeBatchUpdate reqs =
      ⟨BatchResponse.remoteResponse, [reqs],
        decide (MAX_BATCH_UPDATE_REQUESTS < reqs.length)⟩ := by
  rw [executeBatchUpdate]
  rw [if_neg (by simpa using h)]

/-- C10 witness: a 51-request batch still goes out as one remote call,
with the warning flag set. -/
theorem oversizedBatch_C10_witness :
    List.replicate 51 (Request.deleteContentRange 0 1) ≠
      ([] : List Request) ∧
    executeBatchUpdate (List.replicate 51 (Request.deleteContentRange 0 1)) =
      ⟨BatchResponse.remoteResponse,
        [List.replicate 51 (Request.deleteContentRange 0 1)],
        decide (MAX_BATCH_UPDATE_REQUESTS <
          (List.replicate 51 (Request.deleteContentRange 0 1)).length)⟩ ∧
    (executeBatchUpdate
      (List.replicate 51 (Request.deleteContentRange 0 1))).warned = true :=
  ⟨by simp, oversizedBatch_C10 _ (by simp), by rfl⟩

/-! ### Claim C9: styles without text content are never applied -/

/-- C9: when `textContent` is undefined, `editTableCell` issues no remote
batch call of any kind yet still reports `success: true`; and when
`textContent` is the empty string, every request it does issue is a
content mutation, never a style request — styles are applied only when a
non-empty `textContent` is also supplied. -/
theorem editStyleFrame_C9 :
    (∀ (doc1 doc2 : List Element) (tsi r c : Nat)
       (ts : Option TextStyleArgs) (ps : Option ParagraphStyleArgs)
       (hexFn : String → Option RgbColor) (res : EditCellResult)
       (calls : List (List Request)),
      editTableCell doc1 doc2 tsi r c none ts ps hexFn =
        Except.ok (res, calls) →
      calls = [] ∧ res.success = true)
  ∧ (∀ (doc1 doc2 : List Element) (tsi r c : Nat)
       (ts : Option TextStyleArgs) (ps : Option ParagraphStyleArgs)
       (hexFn : String → Option RgbColor) (res : EditCellResult)
       (calls : List (List Request)),
      editTableCell doc1 doc2 tsi r c (some []) ts ps hexFn =
        Except.ok (res, calls) →
      calls.all (fun call => call.all fun req => !isStyleRequest req)
        = true ∧ res.success = true) := by
  constructor
  · intro doc1 doc2 tsi r c ts ps hexFn res calls h
    rcases hgc : getTableCellRange doc1 tsi r c with _ | cr
    · rw [editTableCell, hgc] at h
      exact Bool.noConfusion (show false = true from congrArg
        (fun x => match x with
          | Except.ok _ => true
          | Except.error _ => false) h)
    · rw [editTableCell, hgc] at h
      cases hor : (ts.isSome || ps.isSome) <;> rw [hor] at h <;>
        exact ⟨(show ([] : List (List Request)) = calls from congrArg
            (fun x => match x with
              | Except.ok p => p.2
              | Except.error _ => ([] : List (List Request))) h).symm,
          (show true = res.success from congrArg
            (fun x => match x with
              | Except.ok p => p.1.success
              | Except.error _ => true) h).symm⟩
  · intro doc1 doc2 tsi r c ts ps hexFn res calls h
    rcases hgc : getTableCellRange doc1 tsi r c with _ | cr
    · rw [editTableCell, hgc] at h
      exact Bool.noConfusion (show false = true from congrArg
        (fun x => match x with
          | Except.ok _ => true
          | Except.error _ => false) h)
    · rcases cr with ⟨csi, cei, cSt, cEn, hasC⟩
      rw [editTableCell, hgc] at h
      have hres : true = res.success := by
        cases hor : (ts.isSome || ps.isSome) <;> rw [hor] at h <;>
          exact congrArg
            (fun x => match x with
              | Except.ok p => p.1.success
              | Except.error _ => true) h
      refine ⟨?_, hres.symm⟩
      rcases hasC with _ | _
      · have hcalls : ([] : List (List Request)) = calls := by
          cases hor : (ts.isSome || ps.isSome) <;> rw [hor] at h <;>
            exact congrArg
              (fun x => match x with
                | Except.ok p => p.2
                | Except.error _ => ([] : List (List Request))) h
        rw [← hcalls]
        rfl
      · rcases cSt with _ | cs
        · have hcalls : ([] : List (List Request)) = calls := by
            cases hor : (ts.isSome || ps.isSome) <;> rw [hor] at h <;>
              exact congrArg
                (fun x => match x with
                  | Except.ok p => p.2
                  | Except.error _ => ([] : List (List Request))) h
          rw [← hcalls]
          rfl
        · rcases cEn with _ | ce
          · have hcalls : ([] : List (List Request)) = calls := by
              cases hor : (ts.isSome || ps.isSome) <;> rw [hor] at h <;>
                exact congrArg
                  (fun x => match x with
                    | Except.ok p => p.2
                    | Except.error _ => ([] : List (List Request))) h
            rw [← hcalls]
            rfl
          · simp only [editCellContentRequests, List.append_nil] at h
            by_cases hlt : cs < ce - 1
            · rw [if_pos hlt] at h
              have hcalls :
                  [[Request.deleteContentRange cs (ce - 1)]] = calls := by
                cases hor : (ts.isSome || ps.isSome) <;> rw [hor] at h <;>
                  exact congrArg
                    (fun x => match x with
                      | Except.ok p => p.2
                      | Except.error _ =>
                          [[Request.deleteContentRange cs (ce - 1)]]) h
              rw [← hcalls]
              rfl
            · rw [if_neg hlt] at h
              have hcalls : ([] : List (List Request)) = calls := by
                cases hor : (ts.isSome || ps.isSome) <;> rw [hor] at h <;>
                  exact congrArg
                    (fun x => match x with
                      | Except.ok p => p.2
                      | Except.error _ => ([] : List (List Request))) h
              rw [← hcalls]
              rfl

/-- C9 witness: both parts evaluated on `demoCellDoc` with a bold text
style supplied — undefined `textContent` issues no call at all, and empty
`textContent` issues only the content delete, never a style request. -/
theorem editStyleFrame_C9_witness :
    (([] : List (List Request)) = [] ∧
      (EditCellResult.mk true
        "Successfully edited cell (0, 0) in table at index 10").success
        = true) ∧
    (([[Request.deleteContentRange 11 19]] : List (List Request)).all
        (fun call => call.all fun req => !isStyleRequest req) = true ∧
      (EditCellResult.mk true
        "Successfully edited cell (0, 0) in table at index 10").success
        = true) :=
  ⟨editStyleFrame_C9.1 demoCellDoc demoCellDoc 10 0 0
      (some { bold := some true }) none (fun _ => none)
      ⟨true, "Successfully edited cell (0, 0) in table at index 10"⟩ []
      (by rfl),
   editStyleFrame_C9.2 demoCellDoc demoCellDoc 10 0 0
      (some { bold := some true }) none (fun _ => none)
      ⟨true, "Successfully edited cell (0, 0) in table at index 10"⟩
      [[Request.deleteContentRange 11 19]] (by rfl)⟩
